import Mathlib

/-!
# SSD1351 display emulator of `FemtoRV/RTL/sim_main.cpp`

A shallow embedding of the class `SSD1351` (the serial protocol decoder, the
pixel cursor, the frame buffer and the presenter) together with theorems about
its behaviour.

Conventions of the embedding.

* `unsigned int` members are natural numbers; every operation that can leave
  the 32-bit range is reduced modulo `2 ^ 32` at the place where the C++
  arithmetic wraps.
* `unsigned short framebuffer_[128*128]` is a function from the cell index to
  the cell value; values are reduced modulo `2 ^ 16` when stored.
* OpenGL calls are not executed: `redraw` returns the list of blits it would
  issue, and `eval` returns the frames presented during the step.
* The `printf` diagnostic of an out-of-range pixel has no effect on the
  decoder state and is not recorded.
-/

namespace SSD1351

/-- Modulus of `unsigned int` arithmetic. -/
def U32 : Nat := 2 ^ 32

/-- Modulus of `unsigned short` arithmetic. -/
def U16 : Nat := 2 ^ 16

/-- Left shift of an `unsigned int`: bits shifted beyond bit 31 are lost.
C++ leaves the shift undefined for a count of 32 or more; the embedding is the
truncated mathematical shift there as well, so that `eval` stays total. -/
def shl32 (x n : Nat) : Nat := (x <<< n) % U32

/-- Subtraction of `unsigned int` values, wrapping below zero. -/
def sub32 (a b : Nat) : Nat := (a % U32 + U32 - b % U32) % U32

/-- Modelled from the spec: the five signal lines `DIN_`, `CLK_`, `CS_`, `DC_`
and `RST_` refer to members of the generated header `VfemtoRV32_bench.h` (type
`CData`), which is not part of the sources. The spec gives each of them as a
single-bit line sampled once per step, hence a `Bool` (`true` for a non-zero
line). -/
structure Signals where
  DIN : Bool
  CLK : Bool
  CS : Bool
  DC : Bool
  RST : Bool
  deriving DecidableEq, Repr

/-- One `glDrawPixels` call of `redraw`: the raster position is
`(-1, -1 + 2 * rasterLine / 127)`, the rectangle is `width` by `height`, and the
source pointer is `framebuffer_ + src`. -/
structure Blit where
  rasterLine : Nat
  width : Nat
  height : Nat
  src : Nat
  deriving DecidableEq, Repr

/-- What one call of `redraw` sends to the display surface before the buffer
swap. -/
abbrev Frame := List Blit

/-- Data members of `SSD1351` (the references to the signal lines and the GLFW
window handle apart). -/
structure State where
  prev_CLK_ : Bool
  prev_CS_ : Bool
  prev_word_ : Nat
  cur_word_ : Nat
  cur_bit_ : Nat
  cur_command_ : Nat
  cur_arg_ : Nat × Nat
  cur_arg_index_ : Nat
  framebuffer_ : Nat → Nat
  x_ : Nat
  x1_ : Nat
  x2_ : Nat
  y_ : Nat
  y1_ : Nat
  y2_ : Nat
  start_line_ : Nat
  fetch_next_half_ : Bool

/-- The state the constructor leaves. The members the constructor does not
initialise (`cur_arg_`, `cur_arg_index_`, `framebuffer_`, `x_`, `y_`) are taken
as zero here; theorems that hold for every state do not rely on it. -/
def init : State where
  prev_CLK_ := false
  prev_CS_ := true
  prev_word_ := 0
  cur_word_ := 0
  cur_bit_ := 0
  cur_command_ := 0
  cur_arg_ := (0, 0)
  cur_arg_index_ := 0
  framebuffer_ := fun _ => 0
  x_ := 0
  x1_ := 0
  x2_ := 127
  y_ := 0
  y1_ := 0
  y2_ := 127
  start_line_ := 0
  fetch_next_half_ := false

/-- One iteration of the loop of `flip`: tests bit `bit` of `x` and sets bit
`nb-1-bit` of the result. -/
def flipStep (x nb : Nat) (result bit : Nat) : Nat :=
  if x &&& (1 <<< bit) ≠ 0 then result ||| (1 <<< (nb - 1 - bit)) else result

/-- `SSD1351::flip`: reverses the low `nb` bits of `x`. The loop runs `bit`
from `0` to `nb-1`; for the widths the program uses (8 and 16) no shift leaves
the 32-bit range. -/
def flip (x nb : Nat) : Nat :=
  (List.range nb).foldl (flipStep x nb) 0

/-- Assignment `cur_arg_[i] = v` for an index below 2. -/
def setArg (a : Nat × Nat) (i v : Nat) : Nat × Nat :=
  if i = 0 then (v, a.2) else (a.1, v)

/-- Assignment `framebuffer_[idx] = v`, with the conversion to
`unsigned short`. -/
def setCell (fb : Nat → Nat) (idx v : Nat) : Nat → Nat :=
  fun i => if i = idx then v % U16 else fb i

/-- `SSD1351::redraw`: the blits issued for the current `start_line_`. -/
def redraw (s : State) : Frame :=
  (if s.start_line_ ≠ 0 then
      [{ rasterLine := 0, width := 128, height := s.start_line_,
         src := (128 * sub32 128 s.start_line_) % U32 }]
    else []) ++
  [{ rasterLine := s.start_line_, width := 128, height := sub32 128 s.start_line_,
     src := 0 }]

/-- Lines 139-151 of `eval`: a completed pixel colour (held bit-reversed in
`cur_word_`) is stored at the cursor when the cursor is on the display, then
the cursor advances. -/
def writePixel (s : State) : State × List Frame :=
  let s := if s.x_ < 128 ∧ s.y_ < 128 then
      { s with framebuffer_ :=
          setCell s.framebuffer_ ((127 - s.y_) * 128 + s.x_) (flip s.cur_word_ 16) }
    else s
  let s := { s with x_ := (s.x_ + 1) % U32 }
  if s.x_ > s.x2_ then
    let s := { s with y_ := (s.y_ + 1) % U32 }
    let s := { s with x_ := s.x1_ }
    (s, [redraw s])
  else (s, [])

/-- Lines 126-152 of `eval`, the body of `if(cur_command_ == 0x5c)`: a 9-bit
transfer with no half pending is stored and the write is skipped
(`goto discard`); a 9-bit transfer with a half pending is combined with it. -/
def drawPixels (s : State) : State × List Frame :=
  if s.cur_bit_ = 9 then
    if s.fetch_next_half_ then
      let s := { s with fetch_next_half_ := false }
      let s := { s with cur_word_ := shl32 s.cur_word_ 8 ||| s.prev_word_ }
      writePixel s
    else
      let s := { s with prev_word_ := s.cur_word_ }
      let s := { s with fetch_next_half_ := true }
      (s, [])
  else writePixel s

/-- Lines 104-107 of `eval`: the decoded byte is stored as the next argument
while fewer than two arguments are held. -/
def storeArg (s : State) : State :=
  if s.cur_arg_index_ < 2 then
    { s with cur_arg_ := setArg s.cur_arg_ s.cur_arg_index_ (flip s.cur_word_ 8),
             cur_arg_index_ := (s.cur_arg_index_ + 1) % U32 }
  else s

/-- Lines 99-153 of `eval`, the body of `if(!prev_CS_ && CS_)`: the assembled
word is a command when `DC` is low, an argument or pixel data otherwise. -/
def dispatch (s : State) (DC : Bool) : State × List Frame :=
  if !DC then
    let s := { s with cur_command_ := flip s.cur_word_ 8 }
    let s := { s with cur_arg_index_ := 0 }
    (s, [])
  else
    let s := storeArg s
    let s := if s.cur_command_ = 0x15 ∧ s.cur_arg_index_ = 2 then
        { s with x1_ := s.cur_arg_.1, x2_ := s.cur_arg_.2, x_ := s.cur_arg_.1 }
      else s
    let s := if s.cur_command_ = 0x75 ∧ s.cur_arg_index_ = 2 then
        { s with y1_ := s.cur_arg_.1, y2_ := s.cur_arg_.2, y_ := s.cur_arg_.1 }
      else s
    let r := if s.cur_command_ = 0xa1 ∧ s.cur_arg_index_ = 1 then
        let s := { s with start_line_ := s.cur_arg_.1 }
        (s, [redraw s])
      else (s, [])
    if r.1.cur_command_ = 0x5c then
      let p := drawPixels r.1
      (p.1, r.2 ++ p.2)
    else r

/-- `SSD1351::eval`: one simulation step on the sampled lines `i`. Returns the
new state and the frames presented during the step. -/
def eval (s : State) (i : Signals) : State × List Frame :=
  let s := if s.prev_CS_ && !i.CS then { s with cur_word_ := 0, cur_bit_ := 0 } else s
  let s := if !i.CS && i.CLK && !s.prev_CLK_ then
      { s with cur_word_ := s.cur_word_ ||| shl32 i.DIN.toNat s.cur_bit_,
               cur_bit_ := (s.cur_bit_ + 1) % U32 }
    else s
  let r := if !s.prev_CS_ && i.CS then dispatch s i.DC else (s, [])
  ({ r.1 with prev_CLK_ := i.CLK, prev_CS_ := i.CS }, r.2)

/-- The driver loop restricted to the display: `eval` on each sample in turn,
collecting the presented frames in order. -/
def run (s : State) : List Signals → State × List Frame
  | [] => (s, [])
  | i :: rest => ((run (eval s i).1 rest).1, (eval s i).2 ++ (run (eval s i).1 rest).2)

/-- Value of a bit sequence read least-significant-bit first. -/
def bitsToNat : List Bool → Nat
  | [] => 0
  | b :: bs => b.toNat + 2 * bitsToNat bs

/-- The data bits sampled by `eval` over the samples `t` (all with chip-select
asserted): one bit per clock rising edge, `prevClk` being the clock level
before the first sample. -/
def sampledBits (prevClk : Bool) : List Signals → List Bool
  | [] => []
  | i :: rest =>
    (if i.CLK && !prevClk then [i.DIN] else []) ++ sampledBits i.CLK rest

/-- The `nb` low bits of `v`, most significant first. -/
def msbFirst (v nb : Nat) : List Bool :=
  (List.range nb).map (fun i => v.testBit (nb - 1 - i))

/-- A serial transfer seen from the decoder: at least one sample with
chip-select asserted, during which exactly the bits `bits` are clocked in, then
one sample with chip-select deasserted and the data/command line at `dc`. -/
def isTransfer (prevClk : Bool) (t : List Signals) (bits : List Bool) (dc : Bool) : Bool :=
  decide (t.dropLast ≠ []) && t.dropLast.all (fun p => !p.CS) &&
    (sampledBits prevClk t.dropLast == bits) &&
    t.getLast?.any (fun f => f.CS && (f.DC == dc))

/-- The canonical waveform of a transfer: for each bit a sample with the clock
low then a sample with the clock high, and a final sample that deasserts
chip-select. -/
def waveform (bits : List Bool) (dc : Bool) : List Signals :=
  bits.flatMap (fun d => [⟨d, false, false, dc, false⟩, ⟨d, true, false, dc, false⟩]) ++
    [⟨false, false, true, dc, false⟩]

/-- A completed data transfer as `eval` sees it when chip-select is released
with the data/command line high: the accumulator holds the word `w`, assembled
from `nbits` clock pulses. -/
def dataTransfer (s : State) (w nbits : Nat) : State × List Frame :=
  dispatch { s with cur_word_ := w, cur_bit_ := nbits } true

/-- A completed command transfer as `eval` sees it when chip-select is released
with the data/command line low. -/
def commandTransfer (s : State) (w nbits : Nat) : State × List Frame :=
  dispatch { s with cur_word_ := w, cur_bit_ := nbits } false

/-- One pixel colour as it reaches the decoder under opcode 0x5C: a single data
transfer of `nbits` pulses with assembled word `w`, or two data transfers of 9
pulses each with assembled words `w1` then `w2`. -/
inductive PixelTx where
  | whole (w nbits : Nat)
  | halves (w1 w2 : Nat)
  deriving DecidableEq, Repr

/-- A single-transfer pixel must not have the 9-pulse length that `eval`
takes for a half. -/
def PixelTx.wellFramed : PixelTx → Bool
  | .whole _ nbits => nbits != 9
  | .halves _ _ => true

/-- The word `eval` holds in `cur_word_` when it reaches the pixel write:
for two halves `(cur_word_ << 8) | prev_word_`. -/
def PixelTx.word : PixelTx → Nat
  | .whole w _ => w
  | .halves w1 w2 => shl32 w2 8 ||| w1

/-- The data transfers of one pixel colour, in order. -/
def sendPixel (s : State) : PixelTx → State × List Frame
  | .whole w nbits => dataTransfer s w nbits
  | .halves w1 w2 =>
    ((dataTransfer (dataTransfer s w1 9).1 w2 9).1,
      (dataTransfer s w1 9).2 ++ (dataTransfer (dataTransfer s w1 9).1 w2 9).2)

/-- The data transfers of a sequence of pixel colours, in transmission order. -/
def sendPixels (s : State) : List PixelTx → State × List Frame
  | [] => (s, [])
  | p :: ps =>
    ((sendPixels (sendPixel s p).1 ps).1, (sendPixel s p).2 ++ (sendPixels (sendPixel s p).1 ps).2)

/-- No command transfer completes during the samples `u`: at every rising
edge of chip-select the data/command line is high. `cs` is the chip-select
level before the first sample. -/
def dataOnly (cs : Bool) : List Signals → Bool
  | [] => true
  | i :: rest => (cs || !i.CS || i.DC) && dataOnly i.CS rest

/-- The six transfers that set the window to the whole display: opcode 0x15
with arguments 0 and 127, opcode 0x75 with arguments 0 and 127. They leave the
cursor at (0, 0). -/
def fullWindow : List Signals :=
  waveform (msbFirst 0x15 8) false ++ waveform (msbFirst 0 8) true ++
    waveform (msbFirst 127 8) true ++ waveform (msbFirst 0x75 8) false ++
    waveform (msbFirst 0 8) true ++ waveform (msbFirst 127 8) true

/-- The decoder under a window opcode (0x15 or 0x75) once both arguments
have been received and committed. -/
def Committed (s : State) : Prop :=
  s.cur_arg_index_ = 2 ∧
    ((s.cur_command_ = 0x15 ∧ s.x1_ = s.cur_arg_.1 ∧ s.x2_ = s.cur_arg_.2 ∧ s.x_ = s.x1_) ∨
     (s.cur_command_ = 0x75 ∧ s.y1_ = s.cur_arg_.1 ∧ s.y2_ = s.cur_arg_.2 ∧ s.y_ = s.y1_))

instance (s : State) : Decidable (Committed s) := by
  unfold Committed; infer_instance

/-- What holds of the column cursor once a column range has been committed:
the stored arguments and the column bounds are bytes, and `x_` lies at or after
`x1_`, and at or before `x2_` unless it sits on `x1_`. -/
def CursorInv (s : State) : Prop :=
  s.cur_arg_.1 < 256 ∧ s.cur_arg_.2 < 256 ∧ s.x1_ < 256 ∧ s.x2_ < 256 ∧
    s.x1_ ≤ s.x_ ∧ (s.x_ ≤ s.x2_ ∨ s.x_ = s.x1_)

instance (s : State) : Decidable (CursorInv s) := by
  unfold CursorInv; infer_instance

/-- The rows of the frame buffer a blit reads when its source starts on a row
boundary: `height` rows of 128 cells, from row `src / 128` upwards. -/
def Blit.rows (b : Blit) : List Nat := List.range' (b.src / 128) b.height

/-- Clock level after the samples `t`, starting from level `c`. -/
def lastClk (c : Bool) : List Signals → Bool
  | [] => c
  | i :: rest => lastClk i.CLK rest

/-- The decoder state when chip-select is released after the bits `bits` were
clocked in: the accumulator holds them least-significant first. -/
def loaded (s : State) (bits : List Bool) (c : Bool) : State :=
  { s with cur_word_ := bitsToNat bits, cur_bit_ := bits.length, prev_CLK_ := c, prev_CS_ := false }

/-! ## Bit reversal and bit assembly -/

theorem and_one_shl_ne_zero (x bit : Nat) : x &&& (1 <<< bit) ≠ 0 ↔ x.testBit bit = true := by
  rw [Nat.one_shiftLeft]
  constructor
  · intro h
    by_contra hb
    apply h
    apply Nat.eq_of_testBit_eq
    intro i
    rw [Nat.testBit_and, Nat.testBit_two_pow, Nat.zero_testBit]
    by_cases hi : bit = i
    · subst hi; simp [hb]
    · simp [hi]
  · intro hb h
    have := congrArg (fun n => n.testBit bit) h
    simp [Nat.testBit_two_pow_self, hb] at this

theorem flipStep_testBit (x nb result bit j : Nat) :
    (flipStep x nb result bit).testBit j =
      (result.testBit j || (x.testBit bit && decide (nb - 1 - bit = j))) := by
  unfold flipStep
  by_cases hb : x.testBit bit = true
  · rw [if_pos ((and_one_shl_ne_zero x bit).2 hb), Nat.testBit_or, Nat.one_shiftLeft,
      Nat.testBit_two_pow, hb, Bool.true_and]
  · rw [if_neg (fun h => hb ((and_one_shl_ne_zero x bit).1 h))]
    simp [hb]

theorem flip_fold_testBit (x nb j : Nat) : ∀ m, m ≤ nb →
    ((List.range m).foldl (flipStep x nb) 0).testBit j =
      (decide (j < nb) && decide (nb - 1 - j < m) && x.testBit (nb - 1 - j)) := by
  intro m
  induction m with
  | zero => intro _; simp
  | succ m ih =>
    intro hm
    rw [List.range_succ, List.foldl_append, List.foldl_cons, List.foldl_nil,
      flipStep_testBit, ih (by omega)]
    by_cases hj : nb - 1 - m = j
    · have h1 : j < nb := by omega
      have h2 : nb - 1 - j = m := by omega
      simp [hj, h1, h2]
    · have h3 : ¬ (nb - 1 - j = m ∧ j < nb) := by omega
      by_cases h1 : j < nb
      · have h4 : nb - 1 - j ≠ m := fun h => h3 ⟨h, h1⟩
        have h5 : (nb - 1 - j < m + 1) ↔ (nb - 1 - j < m) := by omega
        simp [hj, h1, h5]
      · simp [hj, h1]

theorem flip_testBit (x nb j : Nat) :
    (flip x nb).testBit j = (decide (j < nb) && x.testBit (nb - 1 - j)) := by
  unfold flip
  rw [flip_fold_testBit x nb j nb (Nat.le_refl _)]
  by_cases h1 : j < nb
  · have : nb - 1 - j < nb := by omega
    simp [h1, this]
  · simp [h1]

theorem flip_lt (x nb : Nat) : flip x nb < 2 ^ nb := by
  apply Nat.lt_pow_two_of_testBit
  intro i hi
  rw [flip_testBit]
  have : ¬ i < nb := by omega
  simp [this]

theorem bitsToNat_testBit (l : List Bool) : ∀ j, (bitsToNat l).testBit j = l.getD j false := by
  induction l with
  | nil => intro j; simp [bitsToNat]
  | cons b bs ih =>
    intro j
    cases j with
    | zero => cases b <;> simp [bitsToNat, Nat.add_mod]
    | succ j =>
      rw [Nat.testBit_succ]
      have : (bitsToNat (b :: bs)) / 2 = bitsToNat bs := by
        cases b <;> simp only [bitsToNat, Bool.toNat_false, Bool.toNat_true] <;> omega
      rw [this, ih]; simp

theorem bitsToNat_lt (l : List Bool) : bitsToNat l < 2 ^ l.length := by
  induction l with
  | nil => simp [bitsToNat]
  | cons b bs ih =>
    have : b.toNat ≤ 1 := by cases b <;> simp
    simp only [bitsToNat, List.length_cons, pow_succ]
    omega

theorem flip_msbFirst (v nb : Nat) : flip (bitsToNat (msbFirst v nb)) nb = v % 2 ^ nb := by
  apply Nat.eq_of_testBit_eq
  intro j
  rw [flip_testBit, bitsToNat_testBit, Nat.testBit_mod_two_pow]
  by_cases h1 : j < nb
  · have h2 : nb - 1 - j < nb := by omega
    have h3 : nb - 1 - (nb - 1 - j) = j := by omega
    simp [msbFirst, h1, h2, h3, List.getD_eq_getElem?_getD]
  · simp [h1]


theorem run_append (t u : List Signals) : ∀ s : State,
    run s (t ++ u) = ((run (run s t).1 u).1, (run s t).2 ++ (run (run s t).1 u).2) := by
  induction t with
  | nil => intro s; simp [run]
  | cons i t ih => intro s; simp [run, ih]

theorem or_shl32_bit (w b : Nat) (d : Bool) (hw : w < 2 ^ b) (hb : b < 32) :
    w ||| shl32 d.toNat b = w + 2 ^ b * d.toNat := by
  cases d with
  | false => simp [shl32]
  | true =>
    have h1 : (2 : Nat) ^ b < 2 ^ 32 := Nat.pow_lt_pow_right (by decide) hb
    have h2 : shl32 1 b = 2 ^ b := by
      simp only [shl32, U32, Nat.one_shiftLeft]
      exact Nat.mod_eq_of_lt h1
    have h3 := Nat.mul_add_lt_is_or hw 1
    simp only [Bool.toNat_true, h2, Nat.mul_one] at h3 ⊢
    rw [Nat.or_comm, ← h3, Nat.add_comm]

theorem eval_low (s : State) (i : Signals) (hs : s.prev_CS_ = false) (hi : i.CS = false) :
    eval s i =
      (if i.CLK && !s.prev_CLK_ then
        { s with cur_word_ := s.cur_word_ ||| shl32 i.DIN.toNat s.cur_bit_,
                 cur_bit_ := (s.cur_bit_ + 1) % U32, prev_CLK_ := i.CLK, prev_CS_ := false }
       else { s with prev_CLK_ := i.CLK, prev_CS_ := false }, []) := by
  by_cases h : (i.CLK && !s.prev_CLK_) = true
  · simp [eval, hs, hi, h]
  · simp [eval, hs, hi, h]

theorem run_low (body : List Signals) : ∀ s : State, s.prev_CS_ = false →
    (∀ p ∈ body, p.CS = false) → s.cur_word_ < 2 ^ s.cur_bit_ →
    s.cur_bit_ + (sampledBits s.prev_CLK_ body).length ≤ 32 →
    run s body =
      ({ s with cur_word_ := s.cur_word_ + 2 ^ s.cur_bit_ * bitsToNat (sampledBits s.prev_CLK_ body),
                cur_bit_ := s.cur_bit_ + (sampledBits s.prev_CLK_ body).length,
                prev_CLK_ := lastClk s.prev_CLK_ body, prev_CS_ := false }, []) := by
  induction body with
  | nil =>
    intro s hs _ _ _
    cases s
    simp_all [run, sampledBits, bitsToNat, lastClk]
  | cons i rest ih =>
    intro s hs hcs hw hlen
    have hi : i.CS = false := hcs i (List.mem_cons_self _ _)
    have hrest : ∀ p ∈ rest, p.CS = false := fun p hp => hcs p (List.mem_cons_of_mem _ hp)
    by_cases h : (i.CLK && !s.prev_CLK_) = true
    · have hsb : sampledBits s.prev_CLK_ (i :: rest) = i.DIN :: sampledBits i.CLK rest := by
        simp [sampledBits, h]
      rw [hsb] at hlen ⊢
      simp only [List.length_cons] at hlen
      have hb : s.cur_bit_ < 32 := by omega
      have hmod : (s.cur_bit_ + 1) % U32 = s.cur_bit_ + 1 := by
        apply Nat.mod_eq_of_lt; simp only [U32]; omega
      have hor := or_shl32_bit s.cur_word_ s.cur_bit_ i.DIN hw hb
      have hd : i.DIN.toNat ≤ 1 := by cases i.DIN <;> simp
      have hev : eval s i =
          ({ s with cur_word_ := s.cur_word_ + 2 ^ s.cur_bit_ * i.DIN.toNat,
                    cur_bit_ := s.cur_bit_ + 1, prev_CLK_ := i.CLK, prev_CS_ := false }, []) := by
        rw [eval_low s i hs hi, if_pos h, hmod, hor]
      have hw2 : s.cur_word_ + 2 ^ s.cur_bit_ * i.DIN.toNat < 2 ^ (s.cur_bit_ + 1) := by
        rw [pow_succ]
        have : 2 ^ s.cur_bit_ * i.DIN.toNat ≤ 2 ^ s.cur_bit_ * 1 := Nat.mul_le_mul_left _ hd
        omega
      rw [run, hev]
      dsimp only
      rw [ih _ rfl hrest hw2 (by dsimp only; omega)]
      simp only [bitsToNat, lastClk, List.nil_append, Prod.mk.injEq, and_true, pow_succ,
        List.length_cons]
      congr 1
      · ring
      · omega
    · have hsb : sampledBits s.prev_CLK_ (i :: rest) = sampledBits i.CLK rest := by
        simp [sampledBits, h]
      rw [hsb] at hlen ⊢
      have hev : eval s i = ({ s with prev_CLK_ := i.CLK, prev_CS_ := false }, []) := by
        rw [eval_low s i hs hi, if_neg h]
      rw [run, hev]
      dsimp only
      rw [ih { s with prev_CLK_ := i.CLK, prev_CS_ := false } rfl hrest hw hlen]
      simp [lastClk]


theorem lastClk_append (t : List Signals) (f : Signals) : ∀ c, lastClk c (t ++ [f]) = f.CLK := by
  induction t with
  | nil => intro c; rfl
  | cons i t ih => intro c; simp [lastClk, ih]

theorem eval_fall (s : State) (i : Signals) (hs : s.prev_CS_ = true) (hi : i.CS = false) :
    eval s i = eval { s with cur_word_ := 0, cur_bit_ := 0, prev_CS_ := false } i := by
  by_cases h : (i.CLK && !s.prev_CLK_) = true
  · simp [eval, hs, hi, h]
  · simp [eval, hs, hi, h]

theorem run_body (s : State) (body : List Signals) (hs : s.prev_CS_ = true)
    (hne : body ≠ []) (hcs : ∀ p ∈ body, p.CS = false)
    (hlen : (sampledBits s.prev_CLK_ body).length ≤ 32) :
    run s body =
      ({ s with cur_word_ := bitsToNat (sampledBits s.prev_CLK_ body),
                cur_bit_ := (sampledBits s.prev_CLK_ body).length,
                prev_CLK_ := lastClk s.prev_CLK_ body, prev_CS_ := false }, []) := by
  cases body with
  | nil => exact absurd rfl hne
  | cons i rest =>
    have hi : i.CS = false := hcs i (List.mem_cons_self _ _)
    have h0 : run s (i :: rest) =
        run { s with cur_word_ := 0, cur_bit_ := 0, prev_CS_ := false } (i :: rest) := by
      simp only [run, eval_fall s i hs hi]
    rw [h0, run_low (i :: rest) { s with cur_word_ := 0, cur_bit_ := 0, prev_CS_ := false } rfl hcs
      (by simp) (by simpa using hlen)]
    simp

theorem isTransfer_split {c : Bool} {t : List Signals} {bits : List Bool} {dc : Bool}
    (h : isTransfer c t bits dc = true) :
    ∃ body fin, t = body ++ [fin] ∧ body ≠ [] ∧ (∀ p ∈ body, p.CS = false) ∧
      sampledBits c body = bits ∧ fin.CS = true ∧ fin.DC = dc := by
  simp only [isTransfer, Bool.and_eq_true, decide_eq_true_eq, List.all_eq_true,
    Bool.not_eq_true', beq_iff_eq] at h
  obtain ⟨⟨⟨hne, hcs⟩, hbits⟩, hlast⟩ := h
  cases hl : t.getLast? with
  | none => simp [hl] at hlast
  | some fin =>
    simp only [hl, Option.any_some, Bool.and_eq_true, beq_iff_eq] at hlast
    exact ⟨t.dropLast, fin, (List.dropLast_append_getLast? fin hl).symm, hne, hcs, hbits,
      hlast.1, hlast.2⟩

theorem eval_rise (s : State) (f : Signals) (hs : s.prev_CS_ = false) (hf : f.CS = true) :
    eval s f =
      ({ (dispatch s f.DC).1 with prev_CLK_ := f.CLK, prev_CS_ := true }, (dispatch s f.DC).2) := by
  simp [eval, hs, hf]

theorem run_transfer (s : State) (t : List Signals) (bits : List Bool) (dc : Bool)
    (hs : s.prev_CS_ = true) (ht : isTransfer s.prev_CLK_ t bits dc = true)
    (hlen : bits.length ≤ 32) :
    ∃ c c1, run s t =
      ({ (dispatch (loaded s bits c) dc).1 with prev_CLK_ := c1, prev_CS_ := true },
        (dispatch (loaded s bits c) dc).2) := by
  obtain ⟨body, fin, rfl, hne, hcs, hbits, hfin, hdc⟩ := isTransfer_split ht
  refine ⟨lastClk s.prev_CLK_ body, fin.CLK, ?_⟩
  rw [run_append, run_body s body hs hne hcs (by rw [hbits]; exact hlen), hbits]
  simp only [run, List.nil_append, List.append_nil]
  rw [eval_rise _ fin rfl hfin, hdc]
  rfl


/-! ## Serial transfers -/

theorem bitsToNat_eq_sum (l : List Bool) :
    bitsToNat l = Finset.sum (Finset.range l.length) (fun i => (l.getD i false).toNat * 2 ^ i) := by
  induction l with
  | nil => simp [bitsToNat]
  | cons b bs ih =>
    rw [List.length_cons, Finset.sum_range_succ', bitsToNat, ih, Finset.mul_sum]
    simp only [List.getD_cons_succ, List.getD_cons_zero, pow_zero, Nat.mul_one, pow_succ]
    rw [Nat.add_comm]
    congr 1
    apply Finset.sum_congr rfl
    intro i _
    ring

/-- C1. Serial round trip: from every idle state (chip-select deasserted at
the previous step), a transfer that asserts chip-select, clocks in the 8 bits
of the byte `v` most significant first on 8 clock rising edges and then
deasserts chip-select with the data/command line low leaves `cur_command_`
equal to `v` and `cur_arg_index_` equal to 0. -/
theorem serial_round_trip (v : Nat) (hv : v < 256) (s : State) (hs : s.prev_CS_ = true)
    (t : List Signals) (ht : isTransfer s.prev_CLK_ t (msbFirst v 8) false = true) :
    (run s t).1.cur_command_ = v ∧ (run s t).1.cur_arg_index_ = 0 := by
  obtain ⟨c, c1, h⟩ := run_transfer s t (msbFirst v 8) false hs ht (by simp [msbFirst])
  rw [h]
  simp only [dispatch, loaded, Bool.not_false, if_true, flip_msbFirst, and_true]
  exact Nat.mod_eq_of_lt hv

/-- Instance of `serial_round_trip`: the byte 0x5C sent to the initial state. -/
theorem serial_round_trip_witness :
    (run init (waveform (msbFirst 0x5c 8) false)).1.cur_command_ = 0x5c ∧
      (run init (waveform (msbFirst 0x5c 8) false)).1.cur_arg_index_ = 0 :=
  serial_round_trip 0x5c (by decide) init rfl (waveform (msbFirst 0x5c 8) false) (by decide)

/-- C2. Bit assembly: after a chip-select falling edge and `k ≤ 32` clock
rising edges with chip-select asserted, the data line being `d i` at the
`i`-th edge, the accumulator is the sum of `d i * 2 ^ i` and the bit counter
is `k`, whatever both held before. -/
theorem bit_assembly (s : State) (hs : s.prev_CS_ = true) (body : List Signals)
    (hne : body ≠ []) (hcs : ∀ p ∈ body, p.CS = false) (bits : List Bool)
    (hbits : sampledBits s.prev_CLK_ body = bits) (hk : bits.length ≤ 32) :
    (run s body).1.cur_word_ =
        Finset.sum (Finset.range bits.length) (fun i => (bits.getD i false).toNat * 2 ^ i) ∧
      (run s body).1.cur_bit_ = bits.length := by
  subst hbits
  rw [run_body s body hs hne hcs hk, ← bitsToNat_eq_sum]
  exact ⟨rfl, rfl⟩

/-- Instance of `bit_assembly`: three rising edges with data 1, 0, 1 from a
state whose accumulator and bit counter hold stale values. -/
theorem bit_assembly_witness :
    (run { init with cur_word_ := 77, cur_bit_ := 5 }
        (waveform [true, false, true] true).dropLast).1.cur_word_ =
        Finset.sum (Finset.range [true, false, true].length)
          (fun i => ([true, false, true].getD i false).toNat * 2 ^ i) ∧
      (run { init with cur_word_ := 77, cur_bit_ := 5 }
        (waveform [true, false, true] true).dropLast).1.cur_bit_ = [true, false, true].length :=
  bit_assembly { init with cur_word_ := 77, cur_bit_ := 5 } rfl
    (waveform [true, false, true] true).dropLast (by decide) (by decide) [true, false, true]
    (by decide) (by decide)

/-- C3. Window setting: from every idle state, the six 8-pulse transfers
opcode 0x15, data `a`, data `b`, opcode 0x75, data `c`, data `d` leave
`x1_ = a`, `x2_ = b`, `y1_ = c`, `y2_ = d` and the cursor at `(a, c)`. -/
theorem window_setting (a b c d : Nat) (ha : a < 256) (hb : b < 256) (hc : c < 256)
    (hd : d < 256) (s : State) (hs : s.prev_CS_ = true) (t1 t2 t3 t4 t5 t6 : List Signals)
    (h1 : isTransfer s.prev_CLK_ t1 (msbFirst 0x15 8) false = true)
    (h2 : isTransfer (run s t1).1.prev_CLK_ t2 (msbFirst a 8) true = true)
    (h3 : isTransfer (run s (t1 ++ t2)).1.prev_CLK_ t3 (msbFirst b 8) true = true)
    (h4 : isTransfer (run s (t1 ++ t2 ++ t3)).1.prev_CLK_ t4 (msbFirst 0x75 8) false = true)
    (h5 : isTransfer (run s (t1 ++ t2 ++ t3 ++ t4)).1.prev_CLK_ t5 (msbFirst c 8) true = true)
    (h6 : isTransfer (run s (t1 ++ t2 ++ t3 ++ t4 ++ t5)).1.prev_CLK_ t6 (msbFirst d 8) true
      = true) :
    (run s (t1 ++ t2 ++ t3 ++ t4 ++ t5 ++ t6)).1.x1_ = a ∧
    (run s (t1 ++ t2 ++ t3 ++ t4 ++ t5 ++ t6)).1.x2_ = b ∧
    (run s (t1 ++ t2 ++ t3 ++ t4 ++ t5 ++ t6)).1.y1_ = c ∧
    (run s (t1 ++ t2 ++ t3 ++ t4 ++ t5 ++ t6)).1.y2_ = d ∧
    (run s (t1 ++ t2 ++ t3 ++ t4 ++ t5 ++ t6)).1.x_ = a ∧
    (run s (t1 ++ t2 ++ t3 ++ t4 ++ t5 ++ t6)).1.y_ = c := by
  have len8 : ∀ v, (msbFirst v 8).length ≤ 32 := fun v => by simp [msbFirst]
  have fl : ∀ v, v < 256 → flip (bitsToNat (msbFirst v 8)) 8 = v := fun v hv => by
    rw [flip_msbFirst]; exact Nat.mod_eq_of_lt hv
  have app : ∀ (q : State) (u w : List Signals), (run q (u ++ w)).1 = (run (run q u).1 w).1 :=
    fun q u w => by rw [run_append]
  simp only [app] at h3 h4 h5 h6 ⊢
  -- command 0x15
  obtain ⟨k1, k1', e1⟩ := run_transfer s t1 _ false hs h1 (len8 _)
  have f1 : (run s t1).1.prev_CS_ = true ∧ (run s t1).1.cur_command_ = 0x15 ∧
      (run s t1).1.cur_arg_index_ = 0 := by
    rw [e1]; simp [dispatch, loaded, fl]
  generalize (run s t1).1 = s1 at *
  -- first argument of 0x15
  obtain ⟨k2, k2', e2⟩ := run_transfer s1 t2 _ true f1.1 h2 (len8 _)
  have f2 : (run s1 t2).1.prev_CS_ = true ∧ (run s1 t2).1.cur_command_ = 0x15 ∧
      (run s1 t2).1.cur_arg_index_ = 1 ∧ (run s1 t2).1.cur_arg_.1 = a := by
    rw [e2]; simp [dispatch, storeArg, loaded, setArg, f1, fl, ha, U32]
  generalize (run s1 t2).1 = s2 at *
  -- second argument of 0x15
  obtain ⟨k3, k3', e3⟩ := run_transfer s2 t3 _ true f2.1 h3 (len8 _)
  have f3 : (run s2 t3).1.prev_CS_ = true ∧ (run s2 t3).1.x1_ = a ∧ (run s2 t3).1.x2_ = b ∧
      (run s2 t3).1.x_ = a := by
    rw [e3]; simp [dispatch, storeArg, loaded, setArg, f2, fl, hb, U32]
  generalize (run s2 t3).1 = s3 at *
  -- command 0x75
  obtain ⟨k4, k4', e4⟩ := run_transfer s3 t4 _ false f3.1 h4 (len8 _)
  have f4 : (run s3 t4).1.prev_CS_ = true ∧ (run s3 t4).1.cur_command_ = 0x75 ∧
      (run s3 t4).1.cur_arg_index_ = 0 ∧ (run s3 t4).1.x1_ = a ∧ (run s3 t4).1.x2_ = b ∧
      (run s3 t4).1.x_ = a := by
    rw [e4]; simp [dispatch, loaded, f3, fl]
  generalize (run s3 t4).1 = s4 at *
  -- first argument of 0x75
  obtain ⟨k5, k5', e5⟩ := run_transfer s4 t5 _ true f4.1 h5 (len8 _)
  have f5 : (run s4 t5).1.prev_CS_ = true ∧ (run s4 t5).1.cur_command_ = 0x75 ∧
      (run s4 t5).1.cur_arg_index_ = 1 ∧ (run s4 t5).1.cur_arg_.1 = c ∧
      (run s4 t5).1.x1_ = a ∧ (run s4 t5).1.x2_ = b ∧ (run s4 t5).1.x_ = a := by
    rw [e5]; simp [dispatch, storeArg, loaded, setArg, f4, fl, hc, U32]
  generalize (run s4 t5).1 = s5 at *
  -- second argument of 0x75
  obtain ⟨k6, k6', e6⟩ := run_transfer s5 t6 _ true f5.1 h6 (len8 _)
  rw [e6]
  simp [dispatch, storeArg, loaded, setArg, f5, fl, hd, U32]


/-- Instance of `window_setting`: the window columns 3..100, rows 7..90 set
from the initial state. -/
theorem window_setting_witness :
    (run init (waveform (msbFirst 0x15 8) false ++ waveform (msbFirst 3 8) true ++
      waveform (msbFirst 100 8) true ++ waveform (msbFirst 0x75 8) false ++
      waveform (msbFirst 7 8) true ++ waveform (msbFirst 90 8) true)).1.x1_ = 3 ∧
    (run init (waveform (msbFirst 0x15 8) false ++ waveform (msbFirst 3 8) true ++
      waveform (msbFirst 100 8) true ++ waveform (msbFirst 0x75 8) false ++
      waveform (msbFirst 7 8) true ++ waveform (msbFirst 90 8) true)).1.x2_ = 100 ∧
    (run init (waveform (msbFirst 0x15 8) false ++ waveform (msbFirst 3 8) true ++
      waveform (msbFirst 100 8) true ++ waveform (msbFirst 0x75 8) false ++
      waveform (msbFirst 7 8) true ++ waveform (msbFirst 90 8) true)).1.y1_ = 7 ∧
    (run init (waveform (msbFirst 0x15 8) false ++ waveform (msbFirst 3 8) true ++
      waveform (msbFirst 100 8) true ++ waveform (msbFirst 0x75 8) false ++
      waveform (msbFirst 7 8) true ++ waveform (msbFirst 90 8) true)).1.y2_ = 90 ∧
    (run init (waveform (msbFirst 0x15 8) false ++ waveform (msbFirst 3 8) true ++
      waveform (msbFirst 100 8) true ++ waveform (msbFirst 0x75 8) false ++
      waveform (msbFirst 7 8) true ++ waveform (msbFirst 90 8) true)).1.x_ = 3 ∧
    (run init (waveform (msbFirst 0x15 8) false ++ waveform (msbFirst 3 8) true ++
      waveform (msbFirst 100 8) true ++ waveform (msbFirst 0x75 8) false ++
      waveform (msbFirst 7 8) true ++ waveform (msbFirst 90 8) true)).1.y_ = 7 :=
  window_setting 3 100 7 90 (by decide) (by decide) (by decide) (by decide) init rfl
    (waveform (msbFirst 0x15 8) false) (waveform (msbFirst 3 8) true)
    (waveform (msbFirst 100 8) true) (waveform (msbFirst 0x75 8) false)
    (waveform (msbFirst 7 8) true) (waveform (msbFirst 90 8) true)
    (by decide) (by decide) (by decide) (by decide) (by decide) (by decide)

/-! ## Pixel writes -/

theorem writePixel_framebuffer (s : State) :
    (writePixel s).1.framebuffer_ =
      if s.x_ < 128 ∧ s.y_ < 128 then
        setCell s.framebuffer_ ((127 - s.y_) * 128 + s.x_) (flip s.cur_word_ 16)
      else s.framebuffer_ := by
  unfold writePixel
  dsimp only
  split_ifs <;> rfl

theorem writePixel_cursor (s : State) :
    (writePixel s).1.x_ = (if s.x2_ < (s.x_ + 1) % U32 then s.x1_ else (s.x_ + 1) % U32) ∧
    (writePixel s).1.y_ = (if s.x2_ < (s.x_ + 1) % U32 then (s.y_ + 1) % U32 else s.y_) := by
  unfold writePixel
  dsimp only
  split_ifs <;> simp_all

theorem writePixel_frames (s : State) :
    (writePixel s).2 =
      if s.x2_ < (s.x_ + 1) % U32 then [redraw (writePixel s).1] else [] := by
  unfold writePixel
  dsimp only
  split_ifs <;> simp_all

theorem writePixel_rest (s : State) :
    (writePixel s).1.prev_CLK_ = s.prev_CLK_ ∧ (writePixel s).1.prev_CS_ = s.prev_CS_ ∧
    (writePixel s).1.prev_word_ = s.prev_word_ ∧ (writePixel s).1.cur_word_ = s.cur_word_ ∧
    (writePixel s).1.cur_bit_ = s.cur_bit_ ∧ (writePixel s).1.cur_command_ = s.cur_command_ ∧
    (writePixel s).1.cur_arg_ = s.cur_arg_ ∧
    (writePixel s).1.cur_arg_index_ = s.cur_arg_index_ ∧
    (writePixel s).1.x1_ = s.x1_ ∧ (writePixel s).1.x2_ = s.x2_ ∧
    (writePixel s).1.y1_ = s.y1_ ∧ (writePixel s).1.y2_ = s.y2_ ∧
    (writePixel s).1.start_line_ = s.start_line_ ∧
    (writePixel s).1.fetch_next_half_ = s.fetch_next_half_ := by
  unfold writePixel
  dsimp only
  split_ifs <;> simp

/-- C5. Single pixel write with vertical flip: with the cursor on the display
(`x_ < 128` and `y_ < 128`), a completed pixel colour stores `flip(cur_word_, 16)`
in the cell of index `(127 - y_) * 128 + x_`, which lies below `128 * 128`, and
leaves every other cell of the frame buffer as it was. -/
theorem single_pixel_write (s : State) (hx : s.x_ < 128) (hy : s.y_ < 128) :
    (127 - s.y_) * 128 + s.x_ < 128 * 128 ∧
    (writePixel s).1.framebuffer_ ((127 - s.y_) * 128 + s.x_) = flip s.cur_word_ 16 ∧
    ∀ i, i ≠ (127 - s.y_) * 128 + s.x_ →
      (writePixel s).1.framebuffer_ i = s.framebuffer_ i := by
  rw [writePixel_framebuffer, if_pos ⟨hx, hy⟩]
  refine ⟨by omega, ?_, ?_⟩
  · simp only [setCell, if_true, U16]
    exact Nat.mod_eq_of_lt (flip_lt _ 16)
  · intro i hi
    simp [setCell, hi]

/-- Instance of `single_pixel_write`: the cursor at (5, 7) and the word 1. -/
theorem single_pixel_write_witness :
    (127 - 7) * 128 + 5 < 128 * 128 ∧
    (writePixel { init with x_ := 5, y_ := 7, cur_word_ := 1 }).1.framebuffer_
        ((127 - 7) * 128 + 5) = flip 1 16 ∧
    ∀ i, i ≠ (127 - 7) * 128 + 5 →
      (writePixel { init with x_ := 5, y_ := 7, cur_word_ := 1 }).1.framebuffer_ i =
        init.framebuffer_ i :=
  single_pixel_write { init with x_ := 5, y_ := 7, cur_word_ := 1 } (by decide) (by decide)

/-- C6. Out-of-range pixel: with the cursor off the display (`x_ ≥ 128` or
`y_ ≥ 128`), a completed pixel colour leaves the whole frame buffer unchanged;
the cursor still moves to `x_ + 1` (32-bit increment) when that does not exceed
`x2_`, and to `(x1_, y_ + 1)` otherwise; the opcode, the arguments, the pending
half, the window and the start line are untouched, so decoding goes on. -/
theorem out_of_range_pixel (s : State) (h : 128 ≤ s.x_ ∨ 128 ≤ s.y_) :
    (writePixel s).1.framebuffer_ = s.framebuffer_ ∧
    (writePixel s).1.x_ = (if (s.x_ + 1) % U32 ≤ s.x2_ then (s.x_ + 1) % U32 else s.x1_) ∧
    (writePixel s).1.y_ = (if (s.x_ + 1) % U32 ≤ s.x2_ then s.y_ else (s.y_ + 1) % U32) ∧
    (writePixel s).1.cur_command_ = s.cur_command_ ∧
    (writePixel s).1.cur_arg_index_ = s.cur_arg_index_ ∧
    (writePixel s).1.cur_arg_ = s.cur_arg_ ∧
    (writePixel s).1.fetch_next_half_ = s.fetch_next_half_ ∧
    (writePixel s).1.x1_ = s.x1_ ∧ (writePixel s).1.x2_ = s.x2_ ∧
    (writePixel s).1.y1_ = s.y1_ ∧ (writePixel s).1.y2_ = s.y2_ ∧
    (writePixel s).1.start_line_ = s.start_line_ := by
  have hc := writePixel_cursor s
  have hr := writePixel_rest s
  have hfb : (writePixel s).1.framebuffer_ = s.framebuffer_ := by
    rw [writePixel_framebuffer, if_neg (by omega)]
  refine ⟨hfb, ?_, ?_, hr.2.2.2.2.2.1, hr.2.2.2.2.2.2.2.1, hr.2.2.2.2.2.2.1,
    hr.2.2.2.2.2.2.2.2.2.2.2.2.2, hr.2.2.2.2.2.2.2.2.1, hr.2.2.2.2.2.2.2.2.2.1,
    hr.2.2.2.2.2.2.2.2.2.2.1, hr.2.2.2.2.2.2.2.2.2.2.2.1, hr.2.2.2.2.2.2.2.2.2.2.2.2.1⟩
  · rw [hc.1]; split_ifs <;> first | rfl | omega
  · rw [hc.2]; split_ifs <;> first | rfl | omega


/-- Instance of `out_of_range_pixel`: the cursor at (200, 3) in a window whose
last column is 200. -/
theorem out_of_range_pixel_witness :
    (writePixel { init with x_ := 200, x1_ := 10, x2_ := 200, y_ := 3 }).1.framebuffer_ =
      init.framebuffer_ ∧
    (writePixel { init with x_ := 200, x1_ := 10, x2_ := 200, y_ := 3 }).1.x_ = 10 ∧
    (writePixel { init with x_ := 200, x1_ := 10, x2_ := 200, y_ := 3 }).1.y_ = 4 :=
  have h := out_of_range_pixel { init with x_ := 200, x1_ := 10, x2_ := 200, y_ := 3 }
    (Or.inl (by decide))
  ⟨h.1, h.2.1, h.2.2.1⟩

/-! ## Pixel streams -/

theorem storeArg_eq (s : State) :
    ∃ args idx, storeArg s = { s with cur_arg_ := args, cur_arg_index_ := idx } := by
  unfold storeArg
  split_ifs
  · exact ⟨_, _, rfl⟩
  · exact ⟨s.cur_arg_, s.cur_arg_index_, rfl⟩

theorem writePixel_eq (s : State) :
    (writePixel s).1 =
      { s with
        framebuffer_ :=
          if s.x_ < 128 ∧ s.y_ < 128 then
            setCell s.framebuffer_ ((127 - s.y_) * 128 + s.x_) (flip s.cur_word_ 16)
          else s.framebuffer_
        x_ := if s.x2_ < (s.x_ + 1) % U32 then s.x1_ else (s.x_ + 1) % U32
        y_ := if s.x2_ < (s.x_ + 1) % U32 then (s.y_ + 1) % U32 else s.y_ } := by
  unfold writePixel
  dsimp only
  split_ifs <;> simp_all

theorem dispatch_5c (s : State) (h : s.cur_command_ = 0x5c) :
    dispatch s true = drawPixels (storeArg s) := by
  obtain ⟨args, idx, e⟩ := storeArg_eq s
  unfold dispatch
  simp [e, h]

theorem dataTransfer_whole (s : State) (w n : Nat) (hcmd : s.cur_command_ = 0x5c)
    (hn : n ≠ 9) :
    ∃ args idx, dataTransfer s w n =
      writePixel { s with cur_word_ := w, cur_bit_ := n, cur_arg_ := args,
                          cur_arg_index_ := idx } := by
  have hd : dispatch { s with cur_word_ := w, cur_bit_ := n } true =
      drawPixels (storeArg { s with cur_word_ := w, cur_bit_ := n }) := dispatch_5c _ hcmd
  obtain ⟨args, idx, e⟩ := storeArg_eq { s with cur_word_ := w, cur_bit_ := n }
  refine ⟨args, idx, ?_⟩
  simp only [dataTransfer, hd, e, drawPixels, hn, if_false]

theorem dataTransfer_first (s : State) (w : Nat) (hcmd : s.cur_command_ = 0x5c)
    (hf : s.fetch_next_half_ = false) :
    ∃ args idx, dataTransfer s w 9 =
      ({ s with cur_word_ := w, cur_bit_ := 9, cur_arg_ := args, cur_arg_index_ := idx,
                prev_word_ := w, fetch_next_half_ := true }, []) := by
  have hd : dispatch { s with cur_word_ := w, cur_bit_ := 9 } true =
      drawPixels (storeArg { s with cur_word_ := w, cur_bit_ := 9 }) := dispatch_5c _ hcmd
  obtain ⟨args, idx, e⟩ := storeArg_eq { s with cur_word_ := w, cur_bit_ := 9 }
  refine ⟨args, idx, ?_⟩
  simp only [dataTransfer, hd, e]
  simp [drawPixels, hf]

theorem dataTransfer_second (s : State) (w : Nat) (hcmd : s.cur_command_ = 0x5c)
    (hf : s.fetch_next_half_ = true) :
    ∃ args idx, dataTransfer s w 9 =
      writePixel { s with cur_word_ := shl32 w 8 ||| s.prev_word_, cur_bit_ := 9,
                          cur_arg_ := args, cur_arg_index_ := idx,
                          fetch_next_half_ := false } := by
  have hd : dispatch { s with cur_word_ := w, cur_bit_ := 9 } true =
      drawPixels (storeArg { s with cur_word_ := w, cur_bit_ := 9 }) := dispatch_5c _ hcmd
  obtain ⟨args, idx, e⟩ := storeArg_eq { s with cur_word_ := w, cur_bit_ := 9 }
  refine ⟨args, idx, ?_⟩
  simp only [dataTransfer, hd, e]
  simp [drawPixels, hf]

theorem sendPixel_spec (s : State) (p : PixelTx) (hcmd : s.cur_command_ = 0x5c)
    (hf : s.fetch_next_half_ = false) (hp : p.wellFramed = true) :
    (sendPixel s p).1.cur_command_ = 0x5c ∧ (sendPixel s p).1.fetch_next_half_ = false ∧
    (sendPixel s p).1.x1_ = s.x1_ ∧ (sendPixel s p).1.x2_ = s.x2_ ∧
    (sendPixel s p).1.framebuffer_ =
      (if s.x_ < 128 ∧ s.y_ < 128 then
        setCell s.framebuffer_ ((127 - s.y_) * 128 + s.x_) (flip p.word 16)
       else s.framebuffer_) ∧
    (sendPixel s p).1.x_ = (if s.x2_ < (s.x_ + 1) % U32 then s.x1_ else (s.x_ + 1) % U32) ∧
    (sendPixel s p).1.y_ = (if s.x2_ < (s.x_ + 1) % U32 then (s.y_ + 1) % U32 else s.y_) := by
  cases p with
  | whole w n =>
    have hn : n ≠ 9 := by simpa [PixelTx.wellFramed] using hp
    obtain ⟨args, idx, e⟩ := dataTransfer_whole s w n hcmd hn
    simp only [sendPixel, e, writePixel_eq]
    simp [hcmd, hf, PixelTx.word]
  | halves w1 w2 =>
    obtain ⟨args, idx, e1⟩ := dataTransfer_first s w1 hcmd hf
    obtain ⟨args2, idx2, e2⟩ := dataTransfer_second
      { s with cur_word_ := w1, cur_bit_ := 9, cur_arg_ := args, cur_arg_index_ := idx,
               prev_word_ := w1, fetch_next_half_ := true } w2 hcmd rfl
    simp only [sendPixel, e1, e2, writePixel_eq]
    simp [hcmd, PixelTx.word]


theorem succ_div_mod (j W : Nat) (hW : 0 < W) :
    (j % W + 1 < W → (j + 1) % W = j % W + 1 ∧ (j + 1) / W = j / W) ∧
    (¬ j % W + 1 < W → (j + 1) % W = 0 ∧ (j + 1) / W = j / W + 1) := by
  have hlt : j % W < W := Nat.mod_lt _ hW
  have hj : W * (j / W) + j % W = j := Nat.div_add_mod j W
  constructor
  · intro h
    have e : j + 1 = (j % W + 1) + W * (j / W) := by omega
    constructor
    · rw [e, Nat.add_mul_mod_self_left, Nat.mod_eq_of_lt h]
    · rw [e, Nat.add_mul_div_left _ _ hW, Nat.div_eq_of_lt h, Nat.zero_add]
  · intro h
    have e : j + 1 = 0 + W * (j / W + 1) := by rw [Nat.mul_add]; omega
    constructor
    · rw [e, Nat.add_mul_mod_self_left, Nat.zero_mod]
    · rw [e, Nat.add_mul_div_left _ _ hW, Nat.zero_div, Nat.zero_add]

theorem cell_index_inj (a c W H m n : Nat) (hW : 0 < W) (hx : a + W ≤ 128) (hy : c + H ≤ 128)
    (hm : m < W * H) (hn : n < W * H)
    (h : (127 - (c + m / W)) * 128 + (a + m % W) = (127 - (c + n / W)) * 128 + (a + n % W)) :
    m = n := by
  have hm1 : m % W < W := Nat.mod_lt _ hW
  have hn1 : n % W < W := Nat.mod_lt _ hW
  have hm2 : m / W < H := Nat.div_lt_of_lt_mul hm
  have hn2 : n / W < H := Nat.div_lt_of_lt_mul hn
  have e1 : m / W = n / W := by omega
  have e2 : m % W = n % W := by omega
  rw [← Nat.div_add_mod m W, ← Nat.div_add_mod n W, e1, e2]

theorem fill_aux (a b c d : Nat) (hab : a ≤ b) (hb : b ≤ 127) (hcd : c ≤ d) (hd : d ≤ 127) :
    ∀ (txs : List PixelTx) (s : State) (j : Nat),
      s.cur_command_ = 0x5c → s.fetch_next_half_ = false → s.x1_ = a → s.x2_ = b →
      s.x_ = a + j % (b - a + 1) → s.y_ = c + j / (b - a + 1) →
      j + txs.length ≤ (b - a + 1) * (d - c + 1) →
      (∀ p ∈ txs, p.wellFramed = true) →
      (∀ k (hk : k < txs.length),
        (sendPixels s txs).1.framebuffer_
            ((127 - (c + (j + k) / (b - a + 1))) * 128 + (a + (j + k) % (b - a + 1))) =
          flip (txs.get ⟨k, hk⟩).word 16) ∧
      (∀ i, (∀ k < txs.length,
          i ≠ (127 - (c + (j + k) / (b - a + 1))) * 128 + (a + (j + k) % (b - a + 1))) →
        (sendPixels s txs).1.framebuffer_ i = s.framebuffer_ i) := by
  intro txs
  induction txs with
  | nil =>
    intro s j _ _ _ _ _ _ _ _
    exact ⟨fun k hk => absurd hk (Nat.not_lt_zero k), fun i _ => rfl⟩
  | cons p ps ih =>
    intro s j hcmd hf hx1 hx2 hx hy hlen hok
    have hW : 0 < b - a + 1 := Nat.succ_pos _
    simp only [List.length_cons] at hlen
    have hjlt : j < (b - a + 1) * (d - c + 1) := by omega
    have hmod : j % (b - a + 1) < b - a + 1 := Nat.mod_lt _ hW
    have hdiv : j / (b - a + 1) < d - c + 1 := Nat.div_lt_of_lt_mul hjlt
    have hxr : s.x_ < 128 := by omega
    have hyr : s.y_ < 128 := by omega
    obtain ⟨q1, q2, q3, q4, q5, q6, q7⟩ :=
      sendPixel_spec s p hcmd hf (hok p (List.mem_cons_self _ _))
    rw [if_pos ⟨hxr, hyr⟩] at q5
    have hxm : (s.x_ + 1) % U32 = s.x_ + 1 := by
      apply Nat.mod_eq_of_lt; simp only [U32]; omega
    have hym : (s.y_ + 1) % U32 = s.y_ + 1 := by
      apply Nat.mod_eq_of_lt; simp only [U32]; omega
    rw [hxm, hx1, hx2] at q6
    rw [hxm, hym, hx2] at q7
    obtain ⟨sd1, sd2⟩ := succ_div_mod j (b - a + 1) hW
    have hx' : (sendPixel s p).1.x_ = a + (j + 1) % (b - a + 1) := by
      rw [q6]
      by_cases hw : j % (b - a + 1) + 1 < b - a + 1
      · rw [(sd1 hw).1, if_neg (by omega)]; omega
      · rw [(sd2 hw).1, if_pos (by omega)]; rfl
    have hy' : (sendPixel s p).1.y_ = c + (j + 1) / (b - a + 1) := by
      rw [q7]
      by_cases hw : j % (b - a + 1) + 1 < b - a + 1
      · rw [(sd1 hw).2, if_neg (by omega)]; omega
      · rw [(sd2 hw).2, if_pos (by omega)]; omega
    obtain ⟨ihA, ihB⟩ := ih (sendPixel s p).1 (j + 1) q1 q2 (q3.trans hx1) (q4.trans hx2)
      hx' hy' (by omega) (fun r hr => hok r (List.mem_cons_of_mem _ hr))
    have hcell : (sendPixel s p).1.framebuffer_
        ((127 - (c + j / (b - a + 1))) * 128 + (a + j % (b - a + 1))) = flip p.word 16 := by
      rw [q5, hx, hy]
      simp only [setCell, if_true, U16]
      exact Nat.mod_eq_of_lt (flip_lt _ 16)
    have hother : ∀ i, i ≠ (127 - (c + j / (b - a + 1))) * 128 + (a + j % (b - a + 1)) →
        (sendPixel s p).1.framebuffer_ i = s.framebuffer_ i := by
      intro i hi
      rw [q5, hx, hy]
      simp [setCell, hi]
    constructor
    · intro k hk
      cases k with
      | zero =>
        simp only [sendPixels, Nat.add_zero, List.get_eq_getElem, List.getElem_cons_zero]
        rw [ihB _ ?_, hcell]
        intro k hk2 heq
        have := cell_index_inj a c (b - a + 1) (d - c + 1) j (j + 1 + k) hW (by omega)
          (by omega) hjlt (by omega) heq
        omega
      | succ k =>
        have hk2 : k < ps.length := by simpa using hk
        have := ihA k hk2
        simp only [sendPixels, List.get_eq_getElem, List.getElem_cons_succ] at this ⊢
        have e : j + (k + 1) = j + 1 + k := by omega
        rw [e]
        exact this
    · intro i hi
      simp only [sendPixels]
      rw [ihB i ?_, hother i ?_]
      · have := hi 0 (by simp)
        simpa using this
      · intro k hk
        have := hi (k + 1) (by simpa using hk)
        have e : j + (k + 1) = j + 1 + k := by omega
        rwa [e] at this

/-- C4. Row-major fill: with `a ≤ b ≤ 127`, `c ≤ d ≤ 127`, the window
committed to columns `[a,b]` and rows `[c,d]`, the cursor at `(a, c)`, opcode
0x5C current and no half pending, sending `n = (b-a+1)*(d-c+1)` pixel colours
stores the `k`-th colour at index
`(127 - (c + k / (b-a+1))) * 128 + (a + k % (b-a+1))` and leaves every other
cell of the frame buffer unchanged. -/
theorem row_major_fill (a b c d : Nat) (hab : a ≤ b) (hb : b ≤ 127) (hcd : c ≤ d)
    (hd : d ≤ 127) (s : State) (hx1 : s.x1_ = a) (hx2 : s.x2_ = b) (_hy1 : s.y1_ = c)
    (_hy2 : s.y2_ = d) (hx : s.x_ = a) (hy : s.y_ = c) (hcmd : s.cur_command_ = 0x5c)
    (hf : s.fetch_next_half_ = false) (txs : List PixelTx)
    (hok : ∀ p ∈ txs, p.wellFramed = true)
    (hn : txs.length = (b - a + 1) * (d - c + 1)) :
    (∀ k (hk : k < txs.length),
      (sendPixels s txs).1.framebuffer_
          ((127 - (c + k / (b - a + 1))) * 128 + (a + k % (b - a + 1))) =
        flip (txs.get ⟨k, hk⟩).word 16) ∧
    (∀ i, (∀ k < txs.length,
        i ≠ (127 - (c + k / (b - a + 1))) * 128 + (a + k % (b - a + 1))) →
      (sendPixels s txs).1.framebuffer_ i = s.framebuffer_ i) := by
  have hW : 0 < b - a + 1 := Nat.succ_pos _
  have h := fill_aux a b c d hab hb hcd hd txs s 0 hcmd hf hx1 hx2
    (by rw [hx, Nat.zero_mod, Nat.add_zero]) (by rw [hy, Nat.zero_div, Nat.add_zero])
    (by omega) hok
  simpa only [Nat.zero_add] using h

/-- Instance of `row_major_fill`: a 2 by 2 window at columns 1..2, rows 3..4,
filled by four colours; the last colour and an untouched cell are read back. -/
theorem row_major_fill_witness :
    (sendPixels { init with x1_ := 1, x2_ := 2, y1_ := 3, y2_ := 4, x_ := 1, y_ := 3,
                            cur_command_ := 0x5c }
        [.whole 1 16, .halves 2 3, .whole 4 16, .whole 5 8]).1.framebuffer_
          ((127 - (3 + 3 / (2 - 1 + 1))) * 128 + (1 + 3 % (2 - 1 + 1))) =
        flip (PixelTx.whole 5 8).word 16 ∧
      (sendPixels { init with x1_ := 1, x2_ := 2, y1_ := 3, y2_ := 4, x_ := 1, y_ := 3,
                              cur_command_ := 0x5c }
        [.whole 1 16, .halves 2 3, .whole 4 16, .whole 5 8]).1.framebuffer_ 0 = 0 :=
  have h := row_major_fill 1 2 3 4 (by decide) (by decide) (by decide) (by decide)
    { init with x1_ := 1, x2_ := 2, y1_ := 3, y2_ := 4, x_ := 1, y_ := 3, cur_command_ := 0x5c }
    rfl rfl rfl rfl rfl rfl rfl rfl [.whole 1 16, .halves 2 3, .whole 4 16, .whole 5 8]
    (by decide) (by decide)
  ⟨h.1 3 (by decide), h.2 0 (by decide)⟩


/-! ## Pixel halves -/

theorem inc32_ne (x : Nat) : (x + 1) % U32 ≠ x := by
  simp only [U32, Nat.reducePow]
  omega

/-- C8. Deferral threshold: under opcode 0x5C a completed data transfer
defers (frame buffer and cursor unchanged, no redraw, a half marked pending)
if and only if its bit count is 9 and no half is pending; in every other case
the pixel is written in that same transfer (with the two halves combined when
the bit count is 9) and the cursor moves. -/
theorem deferral_threshold (s : State) (hcmd : s.cur_command_ = 0x5c) :
    (((dispatch s true).1.framebuffer_ = s.framebuffer_ ∧ (dispatch s true).1.x_ = s.x_ ∧
        (dispatch s true).1.y_ = s.y_ ∧ (dispatch s true).2 = [] ∧
        (dispatch s true).1.fetch_next_half_ = true) ↔
      (s.cur_bit_ = 9 ∧ s.fetch_next_half_ = false)) ∧
    (¬ (s.cur_bit_ = 9 ∧ s.fetch_next_half_ = false) →
      (dispatch s true).1.framebuffer_ =
        (if s.x_ < 128 ∧ s.y_ < 128 then
          setCell s.framebuffer_ ((127 - s.y_) * 128 + s.x_)
            (flip (if s.cur_bit_ = 9 then shl32 s.cur_word_ 8 ||| s.prev_word_
                   else s.cur_word_) 16)
         else s.framebuffer_) ∧
      (dispatch s true).1.x_ =
        (if (s.x_ + 1) % U32 ≤ s.x2_ then (s.x_ + 1) % U32 else s.x1_) ∧
      (dispatch s true).1.y_ =
        (if (s.x_ + 1) % U32 ≤ s.x2_ then s.y_ else (s.y_ + 1) % U32) ∧
      ((dispatch s true).1.x_ ≠ s.x_ ∨ (dispatch s true).1.y_ ≠ s.y_)) := by
  obtain ⟨args, idx, e⟩ := storeArg_eq s
  have hd := dispatch_5c s hcmd
  have hmove : ∀ X Y : Nat,
      X = (if (s.x_ + 1) % U32 ≤ s.x2_ then (s.x_ + 1) % U32 else s.x1_) →
      Y = (if (s.x_ + 1) % U32 ≤ s.x2_ then s.y_ else (s.y_ + 1) % U32) →
      (X ≠ s.x_ ∨ Y ≠ s.y_) := by
    intro X Y hX hY
    by_cases hw : (s.x_ + 1) % U32 ≤ s.x2_
    · left; rw [hX, if_pos hw]; exact inc32_ne _
    · right; rw [hY, if_neg hw]; exact inc32_ne _
  by_cases h9 : s.cur_bit_ = 9
  · by_cases hf : s.fetch_next_half_ = true
    · -- second half: combined and written
      have hr : dispatch s true =
          writePixel { s with cur_arg_ := args, cur_arg_index_ := idx,
                              fetch_next_half_ := false,
                              cur_word_ := shl32 s.cur_word_ 8 ||| s.prev_word_ } := by
        rw [hd, e]; simp [drawPixels, h9, hf]
      have hx : (dispatch s true).1.x_ =
          (if (s.x_ + 1) % U32 ≤ s.x2_ then (s.x_ + 1) % U32 else s.x1_) := by
        rw [hr, writePixel_eq]; dsimp only; split_ifs <;> first | rfl | omega
      have hy : (dispatch s true).1.y_ =
          (if (s.x_ + 1) % U32 ≤ s.x2_ then s.y_ else (s.y_ + 1) % U32) := by
        rw [hr, writePixel_eq]; dsimp only; split_ifs <;> first | rfl | omega
      have hfb : (dispatch s true).1.framebuffer_ =
        (if s.x_ < 128 ∧ s.y_ < 128 then
          setCell s.framebuffer_ ((127 - s.y_) * 128 + s.x_)
            (flip (if s.cur_bit_ = 9 then shl32 s.cur_word_ 8 ||| s.prev_word_
                   else s.cur_word_) 16)
         else s.framebuffer_) := by
        rw [hr, writePixel_eq, if_pos h9]
      have hm := hmove _ _ hx hy
      refine ⟨⟨fun h => ?_, fun h => ?_⟩, fun _ => ⟨hfb, hx, hy, hm⟩⟩
      · rcases hm with hm | hm
        · exact absurd h.2.1 hm
        · exact absurd h.2.2.1 hm
      · rw [hf] at h; exact absurd h.2 (by decide)
    · -- first half: stored, the write is skipped
      have hf' : s.fetch_next_half_ = false := by simpa using hf
      have hr : dispatch s true =
          ({ s with cur_arg_ := args, cur_arg_index_ := idx, prev_word_ := s.cur_word_,
                    fetch_next_half_ := true }, []) := by
        rw [hd, e]; simp [drawPixels, h9, hf']
      refine ⟨⟨fun _ => ⟨h9, hf'⟩, fun _ => ?_⟩, fun hn => absurd ⟨h9, hf'⟩ hn⟩
      rw [hr]
      exact ⟨rfl, rfl, rfl, rfl, rfl⟩
  · -- any other bit count: written at once
    have hr : dispatch s true =
        writePixel { s with cur_arg_ := args, cur_arg_index_ := idx } := by
      rw [hd, e]; simp [drawPixels, h9]
    have hx : (dispatch s true).1.x_ =
        (if (s.x_ + 1) % U32 ≤ s.x2_ then (s.x_ + 1) % U32 else s.x1_) := by
      rw [hr, writePixel_eq]; dsimp only; split_ifs <;> first | rfl | omega
    have hy : (dispatch s true).1.y_ =
        (if (s.x_ + 1) % U32 ≤ s.x2_ then s.y_ else (s.y_ + 1) % U32) := by
      rw [hr, writePixel_eq]; dsimp only; split_ifs <;> first | rfl | omega
    have hfb : (dispatch s true).1.framebuffer_ =
      (if s.x_ < 128 ∧ s.y_ < 128 then
        setCell s.framebuffer_ ((127 - s.y_) * 128 + s.x_)
          (flip (if s.cur_bit_ = 9 then shl32 s.cur_word_ 8 ||| s.prev_word_
                 else s.cur_word_) 16)
       else s.framebuffer_) := by
      rw [hr, writePixel_eq, if_neg h9]
    have hm := hmove _ _ hx hy
    refine ⟨⟨fun h => ?_, fun h => absurd h.1 h9⟩, fun _ => ⟨hfb, hx, hy, hm⟩⟩
    rcases hm with hm | hm
    · exact absurd h.2.1 hm
    · exact absurd h.2.2.1 hm


/-- Instance of `deferral_threshold`: a 9-bit transfer with no half pending. -/
theorem deferral_threshold_witness :
    (((dispatch { init with cur_command_ := 0x5c, cur_bit_ := 9 } true).1.framebuffer_ =
          init.framebuffer_ ∧
        (dispatch { init with cur_command_ := 0x5c, cur_bit_ := 9 } true).1.x_ = 0 ∧
        (dispatch { init with cur_command_ := 0x5c, cur_bit_ := 9 } true).1.y_ = 0 ∧
        (dispatch { init with cur_command_ := 0x5c, cur_bit_ := 9 } true).2 = [] ∧
        (dispatch { init with cur_command_ := 0x5c, cur_bit_ := 9 } true).1.fetch_next_half_ =
          true) ↔
      ((9 : Nat) = 9 ∧ false = false)) :=
  (deferral_threshold { init with cur_command_ := 0x5c, cur_bit_ := 9 } rfl).1

/-- A command transfer leaves the pending-half flag and the stored half as they
were. -/
theorem commandTransfer_pending (s : State) (w n : Nat) :
    (commandTransfer s w n).1.fetch_next_half_ = s.fetch_next_half_ ∧
    (commandTransfer s w n).1.prev_word_ = s.prev_word_ := by
  simp [commandTransfer, dispatch]

theorem shl32_testBit (x n i : Nat) :
    (shl32 x n).testBit i = (decide (i < 32) && (decide (n ≤ i) && x.testBit (i - n))) := by
  simp only [shl32, U32, Nat.testBit_mod_two_pow, Nat.testBit_shiftLeft, ge_iff_le]

/-- The colour `eval` writes from two 9-bit halves `w1`, `w2`: the two decoded
bytes concatenated, with the ninth bit of `w1` added at bit 7. -/
theorem halves_colour (w1 w2 : Nat) (h1 : w1 < 512) :
    flip (shl32 w2 8 ||| w1) 16 =
      (flip w1 8 <<< 8) ||| flip w2 8 ||| ((w1 / 256) <<< 7) := by
  have hhi : ∀ i, 9 ≤ i → w1.testBit i = false := fun i hi =>
    Nat.testBit_lt_two_pow (lt_of_lt_of_le h1 (Nat.pow_le_pow_right (by decide) hi : 2 ^ 9 ≤ 2 ^ i))
  apply Nat.eq_of_testBit_eq
  intro j
  simp only [flip_testBit, Nat.testBit_or, shl32_testBit, Nat.testBit_shiftLeft, ge_iff_le]
  have hd : ∀ i, (w1 / 256).testBit i = w1.testBit (i + 8) := by
    intro i
    have : w1 / 256 = w1 >>> 8 := by rw [Nat.shiftRight_eq_div_pow]
    rw [this, Nat.testBit_shiftRight, Nat.add_comm]
  rw [hd]
  by_cases c1 : j < 7
  · have a1 : 16 - 1 - j - 8 = 8 - 1 - j := by omega
    have a2 := hhi (16 - 1 - j) (by omega)
    simp [a1, a2, show j < 16 by omega, show j < 8 by omega, show ¬ 8 ≤ j by omega,
      show ¬ 7 ≤ j by omega, show 16 - 1 - j < 32 by omega, show 8 ≤ 16 - 1 - j by omega]
  · by_cases c2 : j = 7
    · subst c2
      simp
    · by_cases c3 : j < 16
      · have a1 : 8 - 1 - (j - 8) = 16 - 1 - j := by omega
        have a2 := hhi (j - 7 + 8) (by omega)
        simp [a1, a2, c3, show ¬ j < 8 by omega, show 8 ≤ j by omega, show 7 ≤ j by omega,
          show j - 8 < 8 by omega, show ¬ 8 ≤ 16 - 1 - j by omega]
      · have a2 := hhi (j - 7 + 8) (by omega)
        simp [a2, c3, show ¬ j < 8 by omega, show 8 ≤ j by omega, show 7 ≤ j by omega,
          show ¬ j - 8 < 8 by omega]


/-- When the ninth sampled bit of the first half is 0, the colour written from
two halves is the first decoded byte followed by the second. -/
theorem halves_colour_clean (w1 w2 : Nat) (h1 : w1 < 256) :
    flip (shl32 w2 8 ||| w1) 16 = (flip w1 8 <<< 8) ||| flip w2 8 := by
  rw [halves_colour w1 w2 (by omega), Nat.div_eq_of_lt h1]
  simp

/-! ## Start line -/

theorem eval_cases (s : State) (i : Signals) :
    (s.prev_CS_ = false ∧ i.CS = true ∧
      eval s i = ({ (dispatch s i.DC).1 with prev_CLK_ := i.CLK, prev_CS_ := i.CS },
        (dispatch s i.DC).2)) ∨
    (¬ (s.prev_CS_ = false ∧ i.CS = true) ∧
      ∃ w b, eval s i =
        ({ s with cur_word_ := w, cur_bit_ := b, prev_CLK_ := i.CLK, prev_CS_ := i.CS }, [])) := by
  by_cases h : s.prev_CS_ = false ∧ i.CS = true
  · left
    refine ⟨h.1, h.2, ?_⟩
    rw [eval_rise s i h.1 h.2, h.2]
  · right
    refine ⟨h, ?_⟩
    unfold eval
    cases hp : s.prev_CS_ <;> cases hc : i.CS <;> cases hk : i.CLK <;> cases hq : s.prev_CLK_ <;>
      simp_all


theorem dispatch_a1_later (s : State) (hcmd : s.cur_command_ = 0xa1)
    (hidx : s.cur_arg_index_ = 1 ∨ s.cur_arg_index_ = 2) :
    ∃ args, dispatch s true = ({ s with cur_arg_ := args, cur_arg_index_ := 2 }, []) := by
  rcases hidx with h | h
  · refine ⟨setArg s.cur_arg_ 1 (flip s.cur_word_ 8), ?_⟩
    simp [dispatch, storeArg, hcmd, h, U32]
  · refine ⟨s.cur_arg_, ?_⟩
    have : s = { s with cur_arg_ := s.cur_arg_, cur_arg_index_ := 2 } := by
      cases s; simp_all
    rw [← this]
    simp [dispatch, storeArg, hcmd, h]

theorem start_line_stable (u : List Signals) : ∀ s : State, s.cur_command_ = 0xa1 →
    (s.cur_arg_index_ = 1 ∨ s.cur_arg_index_ = 2) → dataOnly s.prev_CS_ u = true →
    (run s u).1.start_line_ = s.start_line_ ∧ (run s u).2 = [] := by
  induction u with
  | nil => intro s _ _ _; exact ⟨rfl, rfl⟩
  | cons i rest ih =>
    intro s hcmd hidx hu
    simp only [dataOnly, Bool.and_eq_true, Bool.or_eq_true, Bool.not_eq_true'] at hu
    have hrest : dataOnly (eval s i).1.prev_CS_ rest = true := by
      rcases eval_cases s i with ⟨_, _, e⟩ | ⟨_, w, b, e⟩ <;> (rw [e]; exact hu.2)
    rcases eval_cases s i with ⟨hp, hc, e⟩ | ⟨_, w, b, e⟩
    · have hi : i.DC = true := by
        rcases hu.1 with (h | h) | h
        · rw [hp] at h; exact absurd h (by decide)
        · rw [hc] at h; exact absurd h (by decide)
        · exact h
      obtain ⟨args, ed⟩ := dispatch_a1_later s hcmd hidx
      rw [hi, ed] at e
      obtain ⟨h1, h2⟩ := ih (eval s i).1 (by rw [e]; exact hcmd) (by rw [e]; right; rfl) hrest
      rw [e] at h1 h2
      simp only [run, e]
      exact ⟨h1, by rw [h2]; rfl⟩
    · obtain ⟨h1, h2⟩ := ih (eval s i).1 (by rw [e]; exact hcmd) (by rw [e]; exact hidx) hrest
      rw [e] at h1 h2
      simp only [run, e]
      exact ⟨h1, by rw [h2]; rfl⟩

/-- C10. Start-line commit: after opcode 0xA1, the first data transfer, of
decoded byte `sb`, sets `start_line_` to `sb` and presents exactly one frame,
leaving the frame buffer, the window and the cursor unchanged; whatever data
transfers follow under the same opcode, `start_line_` stays `sb` and no frame
is presented. -/
theorem start_line_commit (sb : Nat) (s0 : State) (h0 : s0.prev_CS_ = true)
    (t0 : List Signals) (bits0 : List Bool)
    (ht0 : isTransfer s0.prev_CLK_ t0 bits0 false = true)
    (hlen0 : bits0.length ≤ 32) (hdec0 : flip (bitsToNat bits0) 8 = 0xa1)
    (t : List Signals) (bits : List Bool)
    (ht : isTransfer (run s0 t0).1.prev_CLK_ t bits true = true)
    (hlen : bits.length ≤ 32) (hdec : flip (bitsToNat bits) 8 = sb)
    (u : List Signals) (hu : dataOnly true u = true) :
    (run (run s0 t0).1 t).1.start_line_ = sb ∧
    (run (run s0 t0).1 t).2 = [redraw (run (run s0 t0).1 t).1] ∧
    (run (run s0 t0).1 t).1.framebuffer_ = (run s0 t0).1.framebuffer_ ∧
    (run (run s0 t0).1 t).1.x1_ = (run s0 t0).1.x1_ ∧
    (run (run s0 t0).1 t).1.x2_ = (run s0 t0).1.x2_ ∧
    (run (run s0 t0).1 t).1.y1_ = (run s0 t0).1.y1_ ∧
    (run (run s0 t0).1 t).1.y2_ = (run s0 t0).1.y2_ ∧
    (run (run s0 t0).1 t).1.x_ = (run s0 t0).1.x_ ∧
    (run (run s0 t0).1 t).1.y_ = (run s0 t0).1.y_ ∧
    (run (run (run s0 t0).1 t).1 u).1.start_line_ = sb ∧
    (run (run (run s0 t0).1 t).1 u).2 = [] := by
  -- the opcode
  obtain ⟨k0, k0', e0⟩ := run_transfer s0 t0 bits0 false h0 ht0 hlen0
  have f0 : (run s0 t0).1.prev_CS_ = true ∧ (run s0 t0).1.cur_command_ = 0xa1 ∧
      (run s0 t0).1.cur_arg_index_ = 0 := by
    rw [e0]
    simp [dispatch, loaded, hdec0]
  generalize (run s0 t0).1 = s at *
  -- the first data transfer
  obtain ⟨k1, k1', e1⟩ := run_transfer s t bits true f0.1 ht hlen
  have f1 : (run s t).1.cur_command_ = 0xa1 ∧ (run s t).1.cur_arg_index_ = 1 ∧
      (run s t).1.start_line_ = sb := by
    rw [e1]; simp [dispatch, storeArg, setArg, loaded, f0, hdec, U32]
  have f2 : (run s t).1.prev_CS_ = true := by rw [e1]
  obtain ⟨g1, g2⟩ := start_line_stable u (run s t).1 f1.1 (Or.inl f1.2.1) (by rw [f2]; exact hu)
  rw [g1]
  refine ⟨f1.2.2, ?_, ?_, ?_, ?_, ?_, ?_, ?_, ?_, f1.2.2, g2⟩ <;>
    · rw [e1]; simp [dispatch, storeArg, setArg, loaded, f0, hdec, U32, redraw]

/-- Instance of `start_line_commit`: start line 37, then two more data bytes. -/
theorem start_line_commit_witness :
    (run (run init (waveform (msbFirst 0xa1 8) false)).1
      (waveform (msbFirst 37 8) true)).1.start_line_ = 37 ∧
    (run (run init (waveform (msbFirst 0xa1 8) false)).1 (waveform (msbFirst 37 8) true)).2 =
      [redraw (run (run init (waveform (msbFirst 0xa1 8) false)).1
        (waveform (msbFirst 37 8) true)).1] ∧
    (run (run (run init (waveform (msbFirst 0xa1 8) false)).1 (waveform (msbFirst 37 8) true)).1
      (waveform (msbFirst 99 8) true ++ waveform (msbFirst 5 8) true)).1.start_line_ = 37 ∧
    (run (run (run init (waveform (msbFirst 0xa1 8) false)).1 (waveform (msbFirst 37 8) true)).1
      (waveform (msbFirst 99 8) true ++ waveform (msbFirst 5 8) true)).2 = [] :=
  have h := start_line_commit 37 init rfl (waveform (msbFirst 0xa1 8) false)
    (msbFirst 0xa1 8) (by decide) (by decide) (by decide) (waveform (msbFirst 37 8) true) (msbFirst 37 8) (by decide) (by decide) (by decide)
    (waveform (msbFirst 99 8) true ++ waveform (msbFirst 5 8) true) (by decide)
  ⟨h.1, h.2.1, h.2.2.2.2.2.2.2.2.2.1, h.2.2.2.2.2.2.2.2.2.2⟩

set_option maxRecDepth 100000 in
/-- C7, evaluated on the code. With the window set to the whole display and
opcode 0x5C current, two 9-pulse data transfers with assembled words
`w1 = 256` (only the ninth sampled bit set) and `w2 = 0` write the colour 128
at the cursor (0, 0), whereas `(flip(w1,8) << 8) | flip(w2,8)` is 0: the ninth
bit of the first half lands in bit 7 of the colour. -/
theorem pixel_halves_ninth_bit :
    bitsToNat [false, false, false, false, false, false, false, false, true] = 256 ∧
    bitsToNat [false, false, false, false, false, false, false, false, false] = 0 ∧
    (run init (fullWindow ++ waveform (msbFirst 0x5c 8) false ++
      waveform [false, false, false, false, false, false, false, false, true] true ++
      waveform [false, false, false, false, false, false, false, false, false] true)).1.framebuffer_
        ((127 - 0) * 128 + 0) = 128 ∧
    (flip 256 8 <<< 8) ||| flip 0 8 = 0 := by
  decide

set_option maxRecDepth 100000 in
/-- C9, evaluated on the code. With the window set to the whole display, after
opcode 0x5C and one 9-pulse data transfer (byte 0x12) a half is pending; it is
still pending after a further command transfer (0x5C again), and the next
9-pulse data transfer (byte 0x34) is combined with the stale half: the pixel
0x1234 is written at the cursor (0, 0) and the cursor advances, instead of 0x34
being stored as a first half. -/
theorem command_keeps_pending_half :
    (run init (fullWindow ++ waveform (msbFirst 0x5c 8) false ++
      waveform (msbFirst 0x12 8 ++ [false]) true)).1.fetch_next_half_ = true ∧
    (run init (fullWindow ++ waveform (msbFirst 0x5c 8) false ++
      waveform (msbFirst 0x12 8 ++ [false]) true ++
      waveform (msbFirst 0x5c 8) false)).1.fetch_next_half_ = true ∧
    (run init (fullWindow ++ waveform (msbFirst 0x5c 8) false ++
      waveform (msbFirst 0x12 8 ++ [false]) true ++
      waveform (msbFirst 0x5c 8) false ++
      waveform (msbFirst 0x34 8 ++ [false]) true)).1.fetch_next_half_ = false ∧
    (run init (fullWindow ++ waveform (msbFirst 0x5c 8) false ++
      waveform (msbFirst 0x12 8 ++ [false]) true ++
      waveform (msbFirst 0x5c 8) false ++
      waveform (msbFirst 0x34 8 ++ [false]) true)).1.x_ = 1 ∧
    (run init (fullWindow ++ waveform (msbFirst 0x5c 8) false ++
      waveform (msbFirst 0x12 8 ++ [false]) true ++
      waveform (msbFirst 0x5c 8) false ++
      waveform (msbFirst 0x34 8 ++ [false]) true)).1.framebuffer_ ((127 - 0) * 128 + 0) =
        0x1234 := by
  decide

/-! ## Steps that leave the display state alone -/

theorem dispatch_command (s : State) :
    dispatch s false = ({ s with cur_command_ := flip s.cur_word_ 8, cur_arg_index_ := 0 }, []) := by
  simp [dispatch]

theorem dispatch_other (s : State) (h15 : s.cur_command_ ≠ 0x15) (h75 : s.cur_command_ ≠ 0x75)
    (ha1 : s.cur_command_ ≠ 0xa1) (h5c : s.cur_command_ ≠ 0x5c) :
    dispatch s true = (storeArg s, []) := by
  obtain ⟨args, idx, e⟩ := storeArg_eq s
  unfold dispatch
  simp [e, h15, h75, ha1, h5c]

/-- C15. Clock edges outside a chip-select window are ignored: a step with
chip-select deasserted both at the previous step and now, whatever the other
lines do, changes nothing but the recorded previous clock and chip-select
levels and presents no frame. -/
theorem idle_step_ignored (s : State) (i : Signals) (hp : s.prev_CS_ = true)
    (hc : i.CS = true) :
    eval s i = ({ s with prev_CLK_ := i.CLK, prev_CS_ := i.CS }, []) := by
  simp [eval, hp, hc]

/-- Instance of `idle_step_ignored`: a clock rising edge with data high while
chip-select stays deasserted. -/
theorem idle_step_ignored_witness :
    eval init ⟨true, true, true, false, false⟩ =
      ({ init with prev_CLK_ := true, prev_CS_ := true }, []) :=
  idle_step_ignored init ⟨true, true, true, false, false⟩ rfl rfl

/-- C14. Unrecognized opcode: while `cur_command_` is none of 0x15, 0x75, 0xA1,
0x5C, a completed data transfer presents no frame and leaves the window, the
cursor, the start line, the frame buffer and the rest of the decoder state
unchanged, except that the decoded byte is stored as the next argument while
fewer than two are held. -/
theorem unrecognized_opcode (s : State) (i : Signals) (hp : s.prev_CS_ = false)
    (hc : i.CS = true) (hd : i.DC = true)
    (h15 : s.cur_command_ ≠ 0x15) (h75 : s.cur_command_ ≠ 0x75)
    (ha1 : s.cur_command_ ≠ 0xa1) (h5c : s.cur_command_ ≠ 0x5c) :
    (eval s i).2 = [] ∧
    (eval s i).1.x1_ = s.x1_ ∧ (eval s i).1.x2_ = s.x2_ ∧
    (eval s i).1.y1_ = s.y1_ ∧ (eval s i).1.y2_ = s.y2_ ∧
    (eval s i).1.x_ = s.x_ ∧ (eval s i).1.y_ = s.y_ ∧
    (eval s i).1.start_line_ = s.start_line_ ∧
    (eval s i).1.framebuffer_ = s.framebuffer_ ∧
    (eval s i).1.cur_command_ = s.cur_command_ ∧
    (eval s i).1.cur_word_ = s.cur_word_ ∧ (eval s i).1.cur_bit_ = s.cur_bit_ ∧
    (eval s i).1.prev_word_ = s.prev_word_ ∧
    (eval s i).1.fetch_next_half_ = s.fetch_next_half_ ∧
    (s.cur_arg_index_ < 2 →
      (eval s i).1.cur_arg_ = setArg s.cur_arg_ s.cur_arg_index_ (flip s.cur_word_ 8) ∧
      (eval s i).1.cur_arg_index_ = s.cur_arg_index_ + 1) ∧
    (2 ≤ s.cur_arg_index_ →
      (eval s i).1.cur_arg_ = s.cur_arg_ ∧
      (eval s i).1.cur_arg_index_ = s.cur_arg_index_) := by
  rw [eval_rise s i hp hc, hd, dispatch_other s h15 h75 ha1 h5c]
  have ha : s.cur_arg_index_ < 2 →
      (storeArg s).cur_arg_ = setArg s.cur_arg_ s.cur_arg_index_ (flip s.cur_word_ 8) ∧
      (storeArg s).cur_arg_index_ = s.cur_arg_index_ + 1 := by
    intro h
    have hm : (s.cur_arg_index_ + 1) % U32 = s.cur_arg_index_ + 1 := by
      apply Nat.mod_eq_of_lt; simp only [U32]; omega
    simp [storeArg, h, hm]
  have hb : 2 ≤ s.cur_arg_index_ →
      (storeArg s).cur_arg_ = s.cur_arg_ ∧ (storeArg s).cur_arg_index_ = s.cur_arg_index_ := by
    intro h
    have : ¬ s.cur_arg_index_ < 2 := by omega
    simp [storeArg, this]
  obtain ⟨args, idx, e⟩ := storeArg_eq s
  refine ⟨rfl, ?_, ?_, ?_, ?_, ?_, ?_, ?_, ?_, ?_, ?_, ?_, ?_, ?_, ha, hb⟩ <;> rw [e]


/-- Instance of `unrecognized_opcode`: a data transfer under opcode 0xAF with
no argument stored yet. -/
theorem unrecognized_opcode_witness :
    (eval { init with prev_CS_ := false, cur_command_ := 0xaf, cur_word_ := 0x80 }
      ⟨false, false, true, true, false⟩).2 = [] ∧
    (eval { init with prev_CS_ := false, cur_command_ := 0xaf, cur_word_ := 0x80 }
      ⟨false, false, true, true, false⟩).1.start_line_ = 0 ∧
    (eval { init with prev_CS_ := false, cur_command_ := 0xaf, cur_word_ := 0x80 }
      ⟨false, false, true, true, false⟩).1.cur_arg_ = (1, 0) :=
  have h := unrecognized_opcode
    { init with prev_CS_ := false, cur_command_ := 0xaf, cur_word_ := 0x80 }
    ⟨false, false, true, true, false⟩ rfl rfl rfl (by decide) (by decide) (by decide)
    (by decide)
  ⟨h.1, h.2.2.2.2.2.2.2.1, by decide⟩

theorem drawPixels_rest (s : State) :
    (drawPixels s).1.cur_arg_index_ = s.cur_arg_index_ ∧
    (drawPixels s).1.cur_arg_ = s.cur_arg_ ∧
    (drawPixels s).1.cur_command_ = s.cur_command_ ∧
    (drawPixels s).1.x1_ = s.x1_ ∧ (drawPixels s).1.x2_ = s.x2_ ∧
    (drawPixels s).1.y1_ = s.y1_ ∧ (drawPixels s).1.y2_ = s.y2_ ∧
    (drawPixels s).1.start_line_ = s.start_line_ := by
  unfold drawPixels
  split_ifs
  · have h := writePixel_rest
      { s with fetch_next_half_ := false, cur_word_ := shl32 s.cur_word_ 8 ||| s.prev_word_ }
    exact ⟨h.2.2.2.2.2.2.2.1, h.2.2.2.2.2.2.1, h.2.2.2.2.2.1, h.2.2.2.2.2.2.2.2.1,
      h.2.2.2.2.2.2.2.2.2.1, h.2.2.2.2.2.2.2.2.2.2.1, h.2.2.2.2.2.2.2.2.2.2.2.1,
      h.2.2.2.2.2.2.2.2.2.2.2.2.1⟩
  · exact ⟨rfl, rfl, rfl, rfl, rfl, rfl, rfl, rfl⟩
  · have h := writePixel_rest s
    exact ⟨h.2.2.2.2.2.2.2.1, h.2.2.2.2.2.2.1, h.2.2.2.2.2.1, h.2.2.2.2.2.2.2.2.1,
      h.2.2.2.2.2.2.2.2.2.1, h.2.2.2.2.2.2.2.2.2.2.1, h.2.2.2.2.2.2.2.2.2.2.2.1,
      h.2.2.2.2.2.2.2.2.2.2.2.2.1⟩

theorem dispatch_data_args (s : State) :
    (dispatch s true).1.cur_arg_index_ = (storeArg s).cur_arg_index_ ∧
    (dispatch s true).1.cur_arg_ = (storeArg s).cur_arg_ ∧
    (dispatch s true).1.cur_command_ = s.cur_command_ := by
  obtain ⟨args, idx, e⟩ := storeArg_eq s
  unfold dispatch
  simp only [Bool.not_true, Bool.false_eq_true, if_false, e]
  split_ifs <;> simp_all [drawPixels_rest]

theorem storeArg_idx_le (s : State) (h : s.cur_arg_index_ ≤ 2) :
    (storeArg s).cur_arg_index_ ≤ 2 := by
  unfold storeArg
  split_ifs with h2
  · show (s.cur_arg_index_ + 1) % U32 ≤ 2
    have : (s.cur_arg_index_ + 1) % U32 = s.cur_arg_index_ + 1 := by
      apply Nat.mod_eq_of_lt; simp only [U32]; omega
    omega
  · exact h

theorem eval_idx_le (s : State) (i : Signals) (h : s.cur_arg_index_ ≤ 2) :
    (eval s i).1.cur_arg_index_ ≤ 2 := by
  rcases eval_cases s i with ⟨_, _, e⟩ | ⟨_, w, b, e⟩
  · rw [e]
    show (dispatch s i.DC).1.cur_arg_index_ ≤ 2
    cases hd : i.DC
    · rw [dispatch_command]; exact Nat.zero_le _
    · rw [(dispatch_data_args s).1]; exact storeArg_idx_le s h
  · rw [e]; exact h

theorem run_idx_le (u : List Signals) : ∀ s : State, s.cur_arg_index_ ≤ 2 →
    (run s u).1.cur_arg_index_ ≤ 2 := by
  induction u with
  | nil => intro s h; exact h
  | cons i rest ih => intro s h; exact ih _ (eval_idx_le s i h)

theorem eval_arg_write (s : State) (i : Signals)
    (h : (eval s i).1.cur_arg_ ≠ s.cur_arg_) : s.cur_arg_index_ < 2 := by
  by_contra hn
  apply h
  rcases eval_cases s i with ⟨_, _, e⟩ | ⟨_, w, b, e⟩
  · rw [e]
    show (dispatch s i.DC).1.cur_arg_ = s.cur_arg_
    cases hd : i.DC
    · rw [dispatch_command]
    · rw [(dispatch_data_args s).2.1]; simp [storeArg, hn]
  · rw [e]

/-- C16. Argument-index bound: a step maps a state with `cur_arg_index_ ≤ 2`
to a state with `cur_arg_index_ ≤ 2`, and so does any sequence of steps; a
decoded opcode sets the index to 0, so from then on it never exceeds 2; and
`cur_arg_` is only written while the index is below 2. -/
theorem arg_index_bound (s : State) (h : s.cur_arg_index_ ≤ 2) (i : Signals)
    (u : List Signals) (s0 : State) (i0 : Signals) (hp : s0.prev_CS_ = false)
    (hc : i0.CS = true) (hd : i0.DC = false) :
    (eval s i).1.cur_arg_index_ ≤ 2 ∧ (run s u).1.cur_arg_index_ ≤ 2 ∧
    (eval s0 i0).1.cur_arg_index_ = 0 ∧ (run (eval s0 i0).1 u).1.cur_arg_index_ ≤ 2 ∧
    ((eval s i).1.cur_arg_ ≠ s.cur_arg_ → s.cur_arg_index_ < 2) := by
  have h0 : (eval s0 i0).1.cur_arg_index_ = 0 := by
    rw [eval_rise s0 i0 hp hc, hd, dispatch_command]
  exact ⟨eval_idx_le s i h, run_idx_le u s h, h0,
    run_idx_le u _ (by rw [h0]; exact Nat.zero_le _), eval_arg_write s i⟩

/-- Instance of `arg_index_bound`: one argument held under 0x15, and a command
transfer from a state whose index holds 77. -/
theorem arg_index_bound_witness :
    (eval { init with cur_arg_index_ := 1, prev_CS_ := false, cur_command_ := 0x15 }
      ⟨false, false, true, true, false⟩).1.cur_arg_index_ ≤ 2 ∧
    (run { init with cur_arg_index_ := 1, prev_CS_ := false, cur_command_ := 0x15 }
      (waveform (msbFirst 7 8) true ++ waveform (msbFirst 9 8) true)).1.cur_arg_index_ ≤ 2 ∧
    (eval { init with cur_arg_index_ := 77, prev_CS_ := false }
      ⟨false, false, true, false, false⟩).1.cur_arg_index_ = 0 :=
  have h := arg_index_bound
    { init with cur_arg_index_ := 1, prev_CS_ := false, cur_command_ := 0x15 } (by decide)
    ⟨false, false, true, true, false⟩
    (waveform (msbFirst 7 8) true ++ waveform (msbFirst 9 8) true)
    { init with cur_arg_index_ := 77, prev_CS_ := false } ⟨false, false, true, false, false⟩
    rfl rfl rfl
  ⟨h.1, h.2.1, h.2.2.1⟩

/-- C17. Only a completed data transfer changes the decoded display state:
a step that is not a chip-select rising edge with the data/command line high
presents no frame and leaves the window, the cursor, the start line and the
frame buffer unchanged; with chip-select asserted the step changes only the
accumulator, the bit counter and the recorded previous line values. -/
theorem display_state_frame (s : State) (i : Signals)
    (h : ¬ (s.prev_CS_ = false ∧ i.CS = true ∧ i.DC = true)) :
    (eval s i).2 = [] ∧
    (eval s i).1.x1_ = s.x1_ ∧ (eval s i).1.x2_ = s.x2_ ∧
    (eval s i).1.y1_ = s.y1_ ∧ (eval s i).1.y2_ = s.y2_ ∧
    (eval s i).1.x_ = s.x_ ∧ (eval s i).1.y_ = s.y_ ∧
    (eval s i).1.start_line_ = s.start_line_ ∧
    (eval s i).1.framebuffer_ = s.framebuffer_ ∧
    (i.CS = false → ∃ w b, eval s i =
      ({ s with cur_word_ := w, cur_bit_ := b, prev_CLK_ := i.CLK, prev_CS_ := i.CS }, [])) := by
  rcases eval_cases s i with ⟨hp, hc, e⟩ | ⟨hn, w, b, e⟩
  · have hd : i.DC = false := by
      cases hd : i.DC
      · rfl
      · exact absurd ⟨hp, hc, hd⟩ h
    rw [hd, dispatch_command] at e
    rw [e]
    refine ⟨rfl, rfl, rfl, rfl, rfl, rfl, rfl, rfl, rfl, fun hcs => ?_⟩
    rw [hc] at hcs
    exact absurd hcs (by decide)
  · rw [e]
    exact ⟨rfl, rfl, rfl, rfl, rfl, rfl, rfl, rfl, rfl, fun _ => ⟨w, b, rfl⟩⟩

/-- Instance of `display_state_frame`: a clock rising edge inside a transfer
under opcode 0x5C. -/
theorem display_state_frame_witness :
    (eval { init with prev_CS_ := false, cur_command_ := 0x5c }
      ⟨true, true, false, true, false⟩).2 = [] ∧
    (eval { init with prev_CS_ := false, cur_command_ := 0x5c }
      ⟨true, true, false, true, false⟩).1.x_ = 0 ∧
    (eval { init with prev_CS_ := false, cur_command_ := 0x5c }
      ⟨true, true, false, true, false⟩).1.cur_word_ = 1 :=
  have h := display_state_frame { init with prev_CS_ := false, cur_command_ := 0x5c }
    ⟨true, true, false, true, false⟩ (by decide)
  ⟨h.1, h.2.2.2.2.2.1, by decide⟩

/-- C18. Cursor advance and redraw request: a completed pixel colour moves the
cursor to `(x_ + 1, y_)` and presents no frame when `x_ + 1 ≤ x2_`, and
otherwise moves it to `(x1_, y_ + 1)` and presents exactly one frame; the
increments are those of `unsigned int`. The window and the start line are
unchanged in both cases. -/
theorem cursor_advance (s : State) :
    ((s.x_ + 1) % U32 ≤ s.x2_ →
      (writePixel s).1.x_ = (s.x_ + 1) % U32 ∧ (writePixel s).1.y_ = s.y_ ∧
      (writePixel s).2 = []) ∧
    (¬ (s.x_ + 1) % U32 ≤ s.x2_ →
      (writePixel s).1.x_ = s.x1_ ∧ (writePixel s).1.y_ = (s.y_ + 1) % U32 ∧
      (writePixel s).2 = [redraw (writePixel s).1]) ∧
    (writePixel s).1.x1_ = s.x1_ ∧ (writePixel s).1.x2_ = s.x2_ ∧
    (writePixel s).1.y1_ = s.y1_ ∧ (writePixel s).1.y2_ = s.y2_ ∧
    (writePixel s).1.start_line_ = s.start_line_ := by
  have hc := writePixel_cursor s
  have hf := writePixel_frames s
  have hr := writePixel_rest s
  refine ⟨fun h => ?_, fun h => ?_, hr.2.2.2.2.2.2.2.2.1, hr.2.2.2.2.2.2.2.2.2.1,
    hr.2.2.2.2.2.2.2.2.2.2.1, hr.2.2.2.2.2.2.2.2.2.2.2.1, hr.2.2.2.2.2.2.2.2.2.2.2.2.1⟩
  · have hn : ¬ s.x2_ < (s.x_ + 1) % U32 := by omega
    rw [hc.1, hc.2, hf, if_neg hn, if_neg hn, if_neg hn]
    exact ⟨rfl, rfl, rfl⟩
  · have hn : s.x2_ < (s.x_ + 1) % U32 := by omega
    rw [hc.1, hc.2, hf, if_pos hn, if_pos hn, if_pos hn]
    exact ⟨rfl, rfl, rfl⟩

/-- Instances of `cursor_advance`: a write inside the row and a write on the
last column of the window. -/
theorem cursor_advance_witness :
    ((writePixel { init with x_ := 5, x1_ := 2, x2_ := 9, y_ := 3 }).1.x_ = (5 + 1) % U32 ∧
      (writePixel { init with x_ := 5, x1_ := 2, x2_ := 9, y_ := 3 }).1.y_ = 3 ∧
      (writePixel { init with x_ := 5, x1_ := 2, x2_ := 9, y_ := 3 }).2 = []) ∧
    ((writePixel { init with x_ := 9, x1_ := 2, x2_ := 9, y_ := 3 }).1.x_ = 2 ∧
      (writePixel { init with x_ := 9, x1_ := 2, x2_ := 9, y_ := 3 }).1.y_ = (3 + 1) % U32 ∧
      (writePixel { init with x_ := 9, x1_ := 2, x2_ := 9, y_ := 3 }).2 =
        [redraw (writePixel { init with x_ := 9, x1_ := 2, x2_ := 9, y_ := 3 }).1]) :=
  ⟨(cursor_advance { init with x_ := 5, x1_ := 2, x2_ := 9, y_ := 3 }).1 (by decide),
   (cursor_advance { init with x_ := 9, x1_ := 2, x2_ := 9, y_ := 3 }).2.1 (by decide)⟩

/-! ## Bit reversal is an involution -/

theorem flip_mod (x nb : Nat) : flip (x % 2 ^ nb) nb = flip x nb := by
  apply Nat.eq_of_testBit_eq
  intro j
  rw [flip_testBit, flip_testBit, Nat.testBit_mod_two_pow]
  by_cases h : j < nb
  · have : nb - 1 - j < nb := by omega
    simp [h, this]
  · simp [h]

theorem flip_flip (x nb : Nat) : flip (flip x nb) nb = x % 2 ^ nb := by
  apply Nat.eq_of_testBit_eq
  intro j
  rw [flip_testBit, flip_testBit, Nat.testBit_mod_two_pow]
  by_cases h : j < nb
  · have h1 : nb - 1 - j < nb := by omega
    have h2 : nb - 1 - (nb - 1 - j) = j := by omega
    simp [h, h1, h2]
  · simp [h]

/-- C20. Bit reversal on widths 8 and 16: `flip x nb` is below `2 ^ nb`,
depends only on the low `nb` bits of `x`, and applying it twice gives
`x mod 2 ^ nb`. -/
theorem flip_involution (nb : Nat) (_h : nb = 8 ∨ nb = 16) (x y : Nat) :
    flip x nb < 2 ^ nb ∧
    (x % 2 ^ nb = y % 2 ^ nb → flip x nb = flip y nb) ∧
    flip (flip x nb) nb = x % 2 ^ nb := by
  refine ⟨flip_lt x nb, fun hxy => ?_, flip_flip x nb⟩
  rw [← flip_mod x nb, ← flip_mod y nb, hxy]

/-- Instance of `flip_involution`: width 16 and two words that agree on their
low 16 bits. -/
theorem flip_involution_witness :
    flip 0x12345 16 < 2 ^ 16 ∧
    (0x12345 % 2 ^ 16 = 0x72345 % 2 ^ 16 → flip 0x12345 16 = flip 0x72345 16) ∧
    flip (flip 0x12345 16) 16 = 0x12345 % 2 ^ 16 :=
  flip_involution 16 (Or.inr rfl) 0x12345 0x72345

/-! ## Argument overflow -/

theorem dispatch_committed (s : State) (h : Committed s) : dispatch s true = (s, []) := by
  obtain ⟨hidx, h⟩ := h
  cases s
  rcases h with ⟨hc, h1, h2, h3⟩ | ⟨hc, h1, h2, h3⟩ <;>
    simp_all [dispatch, storeArg]

theorem run_committed (u : List Signals) : ∀ s : State, Committed s →
    dataOnly s.prev_CS_ u = true →
    ∃ w b c p, run s u =
      ({ s with cur_word_ := w, cur_bit_ := b, prev_CLK_ := c, prev_CS_ := p }, []) := by
  induction u with
  | nil =>
    intro s _ _
    exact ⟨s.cur_word_, s.cur_bit_, s.prev_CLK_, s.prev_CS_, rfl⟩
  | cons i rest ih =>
    intro s hs hu
    simp only [dataOnly, Bool.and_eq_true, Bool.or_eq_true, Bool.not_eq_true'] at hu
    have key : ∃ w b, eval s i =
        ({ s with cur_word_ := w, cur_bit_ := b, prev_CLK_ := i.CLK, prev_CS_ := i.CS }, []) := by
      rcases eval_cases s i with ⟨hp, hc, e⟩ | ⟨_, w, b, e⟩
      · have hi : i.DC = true := by
          rcases hu.1 with (h | h) | h
          · rw [hp] at h; exact absurd h (by decide)
          · rw [hc] at h; exact absurd h (by decide)
          · exact h
        rw [hi, dispatch_committed s hs] at e
        exact ⟨s.cur_word_, s.cur_bit_, e⟩
      · exact ⟨w, b, e⟩
    obtain ⟨w, b, e⟩ := key
    obtain ⟨w2, b2, c2, p2, e2⟩ :=
      ih { s with cur_word_ := w, cur_bit_ := b, prev_CLK_ := i.CLK, prev_CS_ := i.CS } hs hu.2
    refine ⟨w2, b2, c2, p2, ?_⟩
    simp only [run, e, e2, List.nil_append]


theorem window_args_committed (op : Nat) (hop : op = 0x15 ∨ op = 0x75) (s0 : State)
    (h0 : s0.prev_CS_ = true) (t0 : List Signals) (bits0 : List Bool)
    (ht0 : isTransfer s0.prev_CLK_ t0 bits0 false = true) (hlen0 : bits0.length ≤ 32)
    (hdec0 : flip (bitsToNat bits0) 8 = op)
    (t1 : List Signals) (bits1 : List Bool)
    (ht1 : isTransfer (run s0 t0).1.prev_CLK_ t1 bits1 true = true) (hlen1 : bits1.length ≤ 32)
    (t2 : List Signals) (bits2 : List Bool)
    (ht2 : isTransfer (run s0 (t0 ++ t1)).1.prev_CLK_ t2 bits2 true = true)
    (hlen2 : bits2.length ≤ 32) :
    Committed (run s0 (t0 ++ t1 ++ t2)).1 ∧ (run s0 (t0 ++ t1 ++ t2)).1.prev_CS_ = true ∧
    (run s0 (t0 ++ t1 ++ t2)).1.cur_arg_ =
      (flip (bitsToNat bits1) 8, flip (bitsToNat bits2) 8) ∧
    (run s0 (t0 ++ t1 ++ t2)).1.cur_command_ = op := by
  have app : ∀ (q : State) (u w : List Signals), (run q (u ++ w)).1 = (run (run q u).1 w).1 :=
    fun q u w => by rw [run_append]
  simp only [app] at ht2 ⊢
  obtain ⟨k0, k0', e0⟩ := run_transfer s0 t0 bits0 false h0 ht0 hlen0
  have f0 : (run s0 t0).1.prev_CS_ = true ∧ (run s0 t0).1.cur_command_ = op ∧
      (run s0 t0).1.cur_arg_index_ = 0 := by
    rw [e0]; simp [dispatch, loaded, hdec0]
  generalize (run s0 t0).1 = s at *
  obtain ⟨k1, k1', e1⟩ := run_transfer s t1 bits1 true f0.1 ht1 hlen1
  have f1 : (run s t1).1.prev_CS_ = true ∧ (run s t1).1.cur_command_ = op ∧
      (run s t1).1.cur_arg_index_ = 1 ∧ (run s t1).1.cur_arg_.1 = flip (bitsToNat bits1) 8 := by
    rw [e1]
    rcases hop with rfl | rfl <;> simp [dispatch, storeArg, setArg, loaded, f0, U32]
  generalize (run s t1).1 = s1 at *
  obtain ⟨k2, k2', e2⟩ := run_transfer s1 t2 bits2 true f1.1 ht2 hlen2
  rw [e2]
  rcases hop with rfl | rfl <;>
    simp [Committed, dispatch, storeArg, setArg, loaded, f1, U32, Prod.ext_iff]

/-- C13. Argument overflow: once the two arguments of opcode 0x15 or 0x75 have
been received, `cur_arg_index_` is 2 and, whatever data transfers follow
under that opcode, it stays 2, no frame is presented, and the stored
arguments, the window, the cursor, the start line and the frame buffer stay
as they were. -/
theorem argument_overflow_ignored (op : Nat) (hop : op = 0x15 ∨ op = 0x75) (s0 : State)
    (h0 : s0.prev_CS_ = true) (t0 : List Signals) (bits0 : List Bool)
    (ht0 : isTransfer s0.prev_CLK_ t0 bits0 false = true) (hlen0 : bits0.length ≤ 32)
    (hdec0 : flip (bitsToNat bits0) 8 = op)
    (t1 : List Signals) (bits1 : List Bool)
    (ht1 : isTransfer (run s0 t0).1.prev_CLK_ t1 bits1 true = true) (hlen1 : bits1.length ≤ 32)
    (t2 : List Signals) (bits2 : List Bool)
    (ht2 : isTransfer (run s0 (t0 ++ t1)).1.prev_CLK_ t2 bits2 true = true)
    (hlen2 : bits2.length ≤ 32)
    (u : List Signals) (hu : dataOnly true u = true) :
    (run s0 (t0 ++ t1 ++ t2)).1.cur_arg_index_ = 2 ∧
    (run (run s0 (t0 ++ t1 ++ t2)).1 u).2 = [] ∧
    (run (run s0 (t0 ++ t1 ++ t2)).1 u).1.cur_arg_index_ = 2 ∧
    (run (run s0 (t0 ++ t1 ++ t2)).1 u).1.cur_arg_ = (run s0 (t0 ++ t1 ++ t2)).1.cur_arg_ ∧
    (run (run s0 (t0 ++ t1 ++ t2)).1 u).1.x1_ = (run s0 (t0 ++ t1 ++ t2)).1.x1_ ∧
    (run (run s0 (t0 ++ t1 ++ t2)).1 u).1.x2_ = (run s0 (t0 ++ t1 ++ t2)).1.x2_ ∧
    (run (run s0 (t0 ++ t1 ++ t2)).1 u).1.y1_ = (run s0 (t0 ++ t1 ++ t2)).1.y1_ ∧
    (run (run s0 (t0 ++ t1 ++ t2)).1 u).1.y2_ = (run s0 (t0 ++ t1 ++ t2)).1.y2_ ∧
    (run (run s0 (t0 ++ t1 ++ t2)).1 u).1.x_ = (run s0 (t0 ++ t1 ++ t2)).1.x_ ∧
    (run (run s0 (t0 ++ t1 ++ t2)).1 u).1.y_ = (run s0 (t0 ++ t1 ++ t2)).1.y_ ∧
    (run (run s0 (t0 ++ t1 ++ t2)).1 u).1.start_line_ =
      (run s0 (t0 ++ t1 ++ t2)).1.start_line_ ∧
    (run (run s0 (t0 ++ t1 ++ t2)).1 u).1.framebuffer_ =
      (run s0 (t0 ++ t1 ++ t2)).1.framebuffer_ := by
  obtain ⟨hc, hp, _⟩ := window_args_committed op hop s0 h0 t0 bits0 ht0 hlen0 hdec0 t1 bits1
    ht1 hlen1 t2 bits2 ht2 hlen2
  obtain ⟨w, b, c, p, e⟩ := run_committed u _ hc (by rw [hp]; exact hu)
  rw [e]
  exact ⟨hc.1, rfl, hc.1, rfl, rfl, rfl, rfl, rfl, rfl, rfl, rfl, rfl⟩

/-- Instance of `argument_overflow_ignored`: opcode 0x15 with arguments 3 and
100, followed by two more data bytes. -/
theorem argument_overflow_ignored_witness :
    (run init (waveform (msbFirst 0x15 8) false ++ waveform (msbFirst 3 8) true ++
      waveform (msbFirst 100 8) true)).1.cur_arg_index_ = 2 ∧
    (run (run init (waveform (msbFirst 0x15 8) false ++ waveform (msbFirst 3 8) true ++
      waveform (msbFirst 100 8) true)).1
        (waveform (msbFirst 50 8) true ++ waveform (msbFirst 60 8) true)).1.cur_arg_ =
      (run init (waveform (msbFirst 0x15 8) false ++ waveform (msbFirst 3 8) true ++
        waveform (msbFirst 100 8) true)).1.cur_arg_ ∧
    (run (run init (waveform (msbFirst 0x15 8) false ++ waveform (msbFirst 3 8) true ++
      waveform (msbFirst 100 8) true)).1
        (waveform (msbFirst 50 8) true ++ waveform (msbFirst 60 8) true)).1.x2_ =
      (run init (waveform (msbFirst 0x15 8) false ++ waveform (msbFirst 3 8) true ++
        waveform (msbFirst 100 8) true)).1.x2_ :=
  have h := argument_overflow_ignored 0x15 (Or.inl rfl) init rfl
    (waveform (msbFirst 0x15 8) false) (msbFirst 0x15 8) (by decide) (by decide) (by decide)
    (waveform (msbFirst 3 8) true) (msbFirst 3 8) (by decide) (by decide)
    (waveform (msbFirst 100 8) true) (msbFirst 100 8) (by decide) (by decide)
    (waveform (msbFirst 50 8) true ++ waveform (msbFirst 60 8) true) (by decide)
  ⟨h.1, h.2.2.2.1, h.2.2.2.2.2.1⟩

/-! ## The cursor and the window -/

theorem flip8_lt (x : Nat) : flip x 8 < 256 := flip_lt x 8

theorem storeArg_inv (s : State) (h : CursorInv s) : CursorInv (storeArg s) := by
  unfold storeArg
  split_ifs with hi
  · have hf := flip8_lt s.cur_word_
    obtain ⟨h1, h2, h3⟩ := h
    refine ⟨?_, ?_, h3⟩
    · show (setArg s.cur_arg_ s.cur_arg_index_ (flip s.cur_word_ 8)).1 < 256
      unfold setArg; split_ifs <;> assumption
    · show (setArg s.cur_arg_ s.cur_arg_index_ (flip s.cur_word_ 8)).2 < 256
      unfold setArg; split_ifs <;> assumption
  · exact h

theorem writePixel_inv (s : State) (h : CursorInv s) : CursorInv (writePixel s).1 := by
  obtain ⟨h1, h2, h3, h4, h5, h6⟩ := h
  rw [writePixel_eq]
  have hx : s.x_ < 256 := by omega
  have hm : (s.x_ + 1) % U32 = s.x_ + 1 := by
    apply Nat.mod_eq_of_lt; simp only [U32]; omega
  refine ⟨h1, h2, h3, h4, ?_, ?_⟩
  · show s.x1_ ≤ (if s.x2_ < (s.x_ + 1) % U32 then s.x1_ else (s.x_ + 1) % U32)
    rw [hm]; split_ifs <;> omega
  · show (if s.x2_ < (s.x_ + 1) % U32 then s.x1_ else (s.x_ + 1) % U32) ≤ s.x2_ ∨
      (if s.x2_ < (s.x_ + 1) % U32 then s.x1_ else (s.x_ + 1) % U32) = s.x1_
    rw [hm]; split_ifs <;> omega

theorem drawPixels_inv (s : State) (h : CursorInv s) : CursorInv (drawPixels s).1 := by
  unfold drawPixels
  split_ifs
  · exact writePixel_inv _ h
  · exact h
  · exact writePixel_inv _ h

theorem dispatch_inv (s : State) (dc : Bool) (h : CursorInv s) :
    CursorInv (dispatch s dc).1 := by
  cases dc with
  | false => rw [dispatch_command]; exact h
  | true =>
    have h1 := storeArg_inv s h
    unfold dispatch
    simp only [Bool.not_true, Bool.false_eq_true, if_false]
    generalize storeArg s = q at h1 ⊢
    obtain ⟨a1, a2, a3, a4, a5, a6⟩ := h1
    split_ifs
    all_goals first
      | exact drawPixels_inv _ ⟨a1, a2, a3, a4, a5, a6⟩
      | exact drawPixels_inv _ ⟨a1, a2, a1, a2, Nat.le_refl _, Or.inr rfl⟩
      | exact ⟨a1, a2, a3, a4, a5, a6⟩
      | exact ⟨a1, a2, a1, a2, Nat.le_refl _, Or.inr rfl⟩

theorem eval_inv (s : State) (i : Signals) (h : CursorInv s) : CursorInv (eval s i).1 := by
  rcases eval_cases s i with ⟨_, _, e⟩ | ⟨_, w, b, e⟩
  · rw [e]; exact dispatch_inv s i.DC h
  · rw [e]; exact h

theorem run_inv (u : List Signals) : ∀ s : State, CursorInv s → CursorInv (run s u).1 := by
  induction u with
  | nil => intro s h; exact h
  | cons i rest ih => intro s h; exact ih _ (eval_inv s i h)

/-- C11, as amended. In every state reached by any sequence of samples after
the column-range opcode 0x15 has completed (hence also after both window
opcodes have), the cursor satisfies `x1_ ≤ x_`, and `x_ ≤ x2_` whenever
`x1_ ≤ x2_`. Nothing is stated of `y_`, which is not bounded by `y2_`. -/
theorem cursor_column_invariant (s0 : State) (h0 : s0.prev_CS_ = true)
    (t0 : List Signals) (bits0 : List Bool)
    (ht0 : isTransfer s0.prev_CLK_ t0 bits0 false = true) (hlen0 : bits0.length ≤ 32)
    (hdec0 : flip (bitsToNat bits0) 8 = 0x15)
    (t1 : List Signals) (bits1 : List Bool)
    (ht1 : isTransfer (run s0 t0).1.prev_CLK_ t1 bits1 true = true) (hlen1 : bits1.length ≤ 32)
    (t2 : List Signals) (bits2 : List Bool)
    (ht2 : isTransfer (run s0 (t0 ++ t1)).1.prev_CLK_ t2 bits2 true = true)
    (hlen2 : bits2.length ≤ 32) (u : List Signals) :
    (run (run s0 (t0 ++ t1 ++ t2)).1 u).1.x1_ ≤ (run (run s0 (t0 ++ t1 ++ t2)).1 u).1.x_ ∧
    ((run (run s0 (t0 ++ t1 ++ t2)).1 u).1.x1_ ≤ (run (run s0 (t0 ++ t1 ++ t2)).1 u).1.x2_ →
      (run (run s0 (t0 ++ t1 ++ t2)).1 u).1.x_ ≤ (run (run s0 (t0 ++ t1 ++ t2)).1 u).1.x2_) := by
  obtain ⟨hc, _, ha, hcmd⟩ := window_args_committed 0x15 (Or.inl rfl) s0 h0 t0 bits0 ht0
    hlen0 hdec0 t1 bits1 ht1 hlen1 t2 bits2 ht2 hlen2
  have hinv : CursorInv (run s0 (t0 ++ t1 ++ t2)).1 := by
    obtain ⟨_, hc⟩ := hc
    rcases hc with ⟨_, e1, e2, e3⟩ | ⟨h75, _, _, _⟩
    · have b1 := flip8_lt (bitsToNat bits1)
      have b2 := flip8_lt (bitsToNat bits2)
      rw [ha] at e1 e2
      refine ⟨by rw [ha]; exact b1, by rw [ha]; exact b2, by rw [e1]; exact b1,
        by rw [e2]; exact b2, by rw [e3], Or.inr e3⟩
    · rw [hcmd] at h75; exact absurd h75 (by decide)
  obtain ⟨_, _, _, _, h5, h6⟩ := run_inv u _ hinv
  exact ⟨h5, fun h => by omega⟩

/-- Instance of `cursor_column_invariant`: columns 3..4 committed, then opcode
0x5C and three pixels. -/
theorem cursor_column_invariant_witness :
    (run (run init (waveform (msbFirst 0x15 8) false ++ waveform (msbFirst 3 8) true ++
        waveform (msbFirst 4 8) true)).1
      (waveform (msbFirst 0x5c 8) false ++ waveform (msbFirst 0 16) true ++
        waveform (msbFirst 0 16) true ++ waveform (msbFirst 0 16) true)).1.x1_ ≤
    (run (run init (waveform (msbFirst 0x15 8) false ++ waveform (msbFirst 3 8) true ++
        waveform (msbFirst 4 8) true)).1
      (waveform (msbFirst 0x5c 8) false ++ waveform (msbFirst 0 16) true ++
        waveform (msbFirst 0 16) true ++ waveform (msbFirst 0 16) true)).1.x_ :=
  (cursor_column_invariant init rfl (waveform (msbFirst 0x15 8) false) (msbFirst 0x15 8)
    (by decide) (by decide) (by decide) (waveform (msbFirst 3 8) true) (msbFirst 3 8)
    (by decide) (by decide) (waveform (msbFirst 4 8) true) (msbFirst 4 8) (by decide)
    (by decide)
    (waveform (msbFirst 0x5c 8) false ++ waveform (msbFirst 0 16) true ++
      waveform (msbFirst 0 16) true ++ waveform (msbFirst 0 16) true)).1

set_option maxRecDepth 100000 in
/-- C11 fails as stated. After both window opcodes set columns 0..0 and rows
0..0, opcode 0x5C and a single pixel leave `y_ = 1` above `y2_ = 0`; and
after the window opcodes with column arguments 5 and 3 the cursor has
`x_ = 5` above `x2_ = 3`. -/
theorem cursor_leaves_window :
    (run init (waveform (msbFirst 0x15 8) false ++ waveform (msbFirst 0 8) true ++
      waveform (msbFirst 0 8) true ++ waveform (msbFirst 0x75 8) false ++
      waveform (msbFirst 0 8) true ++ waveform (msbFirst 0 8) true ++
      waveform (msbFirst 0x5c 8) false ++ waveform (msbFirst 0 16) true)).1.y2_ = 0 ∧
    (run init (waveform (msbFirst 0x15 8) false ++ waveform (msbFirst 0 8) true ++
      waveform (msbFirst 0 8) true ++ waveform (msbFirst 0x75 8) false ++
      waveform (msbFirst 0 8) true ++ waveform (msbFirst 0 8) true ++
      waveform (msbFirst 0x5c 8) false ++ waveform (msbFirst 0 16) true)).1.y_ = 1 ∧
    (run init (waveform (msbFirst 0x15 8) false ++ waveform (msbFirst 5 8) true ++
      waveform (msbFirst 3 8) true ++ waveform (msbFirst 0x75 8) false ++
      waveform (msbFirst 0 8) true ++ waveform (msbFirst 0 8) true)).1.x2_ = 3 ∧
    (run init (waveform (msbFirst 0x15 8) false ++ waveform (msbFirst 5 8) true ++
      waveform (msbFirst 3 8) true ++ waveform (msbFirst 0x75 8) false ++
      waveform (msbFirst 0 8) true ++ waveform (msbFirst 0 8) true)).1.x_ = 5 := by
  decide

/-- C12, evaluated on the code. Opcode 0xA1 followed by the data byte 200
sets `start_line_` to 200, outside [0,127]; the frame presented at once has a
first blit of 200 rows whose source starts at `128 * (128 - 200)` in 32-bit
arithmetic, far beyond the 128 * 128 cells, and a second blit of `128 - 200`
rows in 32-bit arithmetic. -/
theorem start_line_out_of_range :
    (run init (waveform (msbFirst 0xa1 8) false ++
      waveform (msbFirst 200 8) true)).1.start_line_ = 200 ∧
    (run init (waveform (msbFirst 0xa1 8) false ++ waveform (msbFirst 200 8) true)).2 =
      [[⟨0, 128, 200, 4294958080⟩, ⟨200, 128, 4294967224, 0⟩]] := by
  decide

/-! ## The presenter -/

theorem sub32_small (s : Nat) (h : s ≤ 128) : sub32 128 s = 128 - s := by
  simp only [sub32, U32, Nat.reducePow]
  omega

theorem redraw_eq (st : State) (h : st.start_line_ ≤ 127) :
    redraw st =
      (if st.start_line_ = 0 then [] else
        [⟨0, 128, st.start_line_, 128 * (128 - st.start_line_)⟩]) ++
      [⟨st.start_line_, 128, 128 - st.start_line_, 0⟩] := by
  have hs := sub32_small st.start_line_ (by omega)
  have hm : 128 * (128 - st.start_line_) % U32 = 128 * (128 - st.start_line_) := by
    apply Nat.mod_eq_of_lt; simp only [U32, Nat.reducePow]; omega
  unfold redraw
  rw [hs, hm]
  by_cases h0 : st.start_line_ = 0
  · simp [h0]
  · simp [h0]

/-- C19, as amended. On a redraw with start line `s ≤ 127`: for `s ≠ 0` the
first blit is issued at the raster origin, is `s` rows high and reads rows
`128 - s .. 127` of the frame buffer, and the second blit is issued at raster
line `s`, is `128 - s` rows high and reads rows `0 .. 127 - s`; the two
sources are disjoint and cover the 128 rows. For `s = 0` only the second blit
is issued and covers all 128 rows. The blits are a function of the start line
alone, so presenting twice in a row issues the same blits. -/
theorem presenter_blits (st : State) (h : st.start_line_ ≤ 127) :
    redraw st =
      (if st.start_line_ = 0 then [⟨0, 128, 128, 0⟩]
       else [⟨0, 128, st.start_line_, 128 * (128 - st.start_line_)⟩,
             ⟨st.start_line_, 128, 128 - st.start_line_, 0⟩]) ∧
    (∀ r, r ∈ Blit.rows ⟨0, 128, st.start_line_, 128 * (128 - st.start_line_)⟩ ↔
      128 - st.start_line_ ≤ r ∧ r < 128) ∧
    (∀ r, r ∈ Blit.rows ⟨st.start_line_, 128, 128 - st.start_line_, 0⟩ ↔
      r < 128 - st.start_line_) ∧
    (∀ st' : State, st'.start_line_ = st.start_line_ → redraw st' = redraw st) := by
  refine ⟨?_, ?_, ?_, ?_⟩
  · rw [redraw_eq st h]
    by_cases h0 : st.start_line_ = 0
    · simp [h0]
    · simp [h0]
  · intro r
    simp only [Blit.rows, List.mem_range'_1]
    rw [Nat.mul_div_cancel_left _ (by decide : 0 < 128)]
    omega
  · intro r
    simp only [Blit.rows, List.mem_range'_1]
    omega
  · intro st' e
    unfold redraw
    rw [e]

/-- Instances of `presenter_blits`: start lines 5 and 0. -/
theorem presenter_blits_witness :
    redraw { init with start_line_ := 5 } =
      (if (5 : Nat) = 0 then [⟨0, 128, 128, 0⟩]
       else [⟨0, 128, 5, 128 * (128 - 5)⟩, ⟨5, 128, 128 - 5, 0⟩]) ∧
    redraw { init with start_line_ := 0 } =
      (if (0 : Nat) = 0 then [⟨0, 128, 128, 0⟩]
       else [⟨0, 128, 0, 128 * (128 - 0)⟩, ⟨0, 128, 128 - 0, 0⟩]) :=
  ⟨(presenter_blits { init with start_line_ := 5 } (by decide)).1,
   (presenter_blits { init with start_line_ := 0 } (by decide)).1⟩

/-- C19 fails as stated. With start line 1 the first blit reads row 127 of
the frame buffer, not row 0, and the second blit reads rows 0..126, not rows
1..127. -/
theorem first_blit_reads_top_rows :
    redraw { init with start_line_ := 1 } = [⟨0, 128, 1, 16256⟩, ⟨1, 128, 127, 0⟩] ∧
    (redraw { init with start_line_ := 1 }).map Blit.rows = [[127], List.range' 0 127] ∧
    (redraw { init with start_line_ := 1 }).map Blit.rows ≠ [[0], List.range' 1 127] := by
  decide

end SSD1351
